import Mathlib

/-!
Verification of the Asktra engine (TypeScript) against its natural-language
specification.  The TypeScript sources under `src/lib/asktra` and the Next.js
route handlers are shallowly embedded below: strings are Lean `String`s
(operated on through their character lists), JavaScript numbers are modelled
as rationals (`ℚ`), JSON values as an inductive `Json`, `JSON.parse` as a
fuelled recursive-descent parser, and fallible code as `Except`/`Option`.
-/

namespace Asktra

/-! ## Character classes and string utilities (JS string built-ins) -/

/-- JSON whitespace (the four characters accepted by `JSON.parse` between tokens). -/
def isJsonWS (c : Char) : Bool :=
  c = ' ' || c = '\t' || c = '\n' || c = '\r'

/-- Whitespace stripped by JavaScript `String.prototype.trim` (ASCII part). -/
def isJsWS (c : Char) : Bool :=
  c = ' ' || c = '\t' || c = '\n' || c = '\r' || c = '\x0b' || c = '\x0c'

/-- `trim()` on a character list: drop whitespace from both ends. -/
def jsTrimL (cs : List Char) : List Char :=
  ((cs.dropWhile isJsWS).reverse.dropWhile isJsWS).reverse

/-- JavaScript `s.trim()`. -/
def jsTrimS (s : String) : String :=
  String.mk (jsTrimL s.data)

/-- JavaScript `s.includes(sub)` on character lists (`sub` first). -/
def containsSubL (sub : List Char) : List Char → Bool
  | [] => sub.isEmpty
  | c :: cs => sub.isPrefixOf (c :: cs) || containsSubL sub cs

/-- JavaScript `s.includes(sub)`. -/
def includesS (s sub : String) : Bool :=
  containsSubL sub.data s.data

/-- JavaScript `s.endsWith(sub)`. -/
def endsWithS (s sub : String) : Bool :=
  sub.data.isSuffixOf s.data

/-- ASCII lower-casing of a character list (JS `toLowerCase` on ASCII data). -/
def lowerL (cs : List Char) : List Char := cs.map Char.toLower

/-- ASCII upper-casing of a character list (JS `toUpperCase` on ASCII data). -/
def upperL (cs : List Char) : List Char := cs.map Char.toUpper

/-- JavaScript `s.toLowerCase()`. -/
def lowerS (s : String) : String := String.mk (lowerL s.data)

/-- JavaScript `s.toUpperCase()`. -/
def upperS (s : String) : String := String.mk (upperL s.data)

/-- JavaScript `s.slice(0, n)`. -/
def sliceS (n : Nat) (s : String) : String := String.mk (s.data.take n)

/-- JavaScript `s.split(sep)` for a non-empty string separator: split on every
left-to-right non-overlapping occurrence. -/
def splitL (sep : List Char) : List Char → List (List Char)
  | [] => [[]]
  | c :: cs =>
    if h : sep ≠ [] ∧ sep.isPrefixOf (c :: cs) then
      [] :: splitL sep (List.drop (sep.length - 1) cs)
    else
      match splitL sep cs with
      | [] => [[c]]
      | p :: ps => (c :: p) :: ps
termination_by l => l.length
decreasing_by
  · simp only [List.length_drop, List.length_cons]
    omega
  · simp only [List.length_cons]
    omega

/-! ## JSON value model and `JSON.parse` -/

/-- JSON values as produced by `JSON.parse`.  Numbers are modelled as
rationals (the exact values denoted by JSON numerals); object fields are kept
as an association list in insertion order. -/
inductive Json where
  | null : Json
  | bool (b : Bool) : Json
  | num (q : ℚ) : Json
  | str (s : String) : Json
  | arr (elems : List Json) : Json
  | obj (fields : List (String × Json)) : Json

/-- Property access `j[k]` on a parsed value: `none` models JavaScript
`undefined` (missing key or non-object receiver); a later duplicate key wins,
as in JavaScript object literals. -/
def jGet (j : Json) (k : String) : Option Json :=
  match j with
  | .obj fs => (fs.filter (fun p => p.1 = k)).getLast?.map (·.2)
  | _ => none

/-- Numeric value of a decimal digit character. -/
def digitVal (c : Char) : Nat := c.toNat - 48

/-- Natural number denoted by a list of decimal digit characters. -/
def natOfDigits (ds : List Char) : Nat :=
  ds.foldl (fun n c => n * 10 + digitVal c) 0

/-- Value of a hexadecimal digit character, if it is one. -/
def hexVal (c : Char) : Option Nat :=
  if '0' ≤ c ∧ c ≤ '9' then some (c.toNat - 48)
  else if 'a' ≤ c ∧ c ≤ 'f' then some (c.toNat - 87)
  else if 'A' ≤ c ∧ c ≤ 'F' then some (c.toNat - 55)
  else none

/-- Skip JSON whitespace. -/
def skipWs (cs : List Char) : List Char := cs.dropWhile isJsonWS

/-- Parse the remainder of a JSON string literal (after the opening quote),
returning the decoded characters and the rest of the input. -/
def parseStrRest : List Char → Option (List Char × List Char)
  | [] => none
  | '"' :: rest => some ([], rest)
  | '\\' :: rest =>
    match rest with
    | '"' :: rs => (parseStrRest rs).map (fun p => ('"' :: p.1, p.2))
    | '\\' :: rs => (parseStrRest rs).map (fun p => ('\\' :: p.1, p.2))
    | '/' :: rs => (parseStrRest rs).map (fun p => ('/' :: p.1, p.2))
    | 'b' :: rs => (parseStrRest rs).map (fun p => ('\x08' :: p.1, p.2))
    | 'f' :: rs => (parseStrRest rs).map (fun p => ('\x0c' :: p.1, p.2))
    | 'n' :: rs => (parseStrRest rs).map (fun p => ('\n' :: p.1, p.2))
    | 'r' :: rs => (parseStrRest rs).map (fun p => ('\r' :: p.1, p.2))
    | 't' :: rs => (parseStrRest rs).map (fun p => ('\t' :: p.1, p.2))
    | 'u' :: a :: b :: c :: d :: rs =>
      match hexVal a, hexVal b, hexVal c, hexVal d with
      | some x, some y, some z, some w =>
        (parseStrRest rs).map (fun p =>
          (Char.ofNat (((x * 16 + y) * 16 + z) * 16 + w) :: p.1, p.2))
      | _, _, _, _ => none
    | _ => none
  | c :: rest =>
    if c.toNat < 32 then none
    else (parseStrRest rest).map (fun p => (c :: p.1, p.2))

/-- Parse a JSON numeral (grammar of RFC 8259: optional minus, integer part
with no leading zero, optional fraction, optional exponent). -/
def parseNum (cs : List Char) : Option (ℚ × List Char) :=
  let (neg, cs1) :=
    match cs with
    | '-' :: r => (true, r)
    | _ => (false, cs)
  let intDone : Option (Nat × List Char) :=
    match cs1 with
    | '0' :: r =>
      match r with
      | c :: _ => if c.isDigit then none else some (0, r)
      | [] => some (0, [])
    | c :: _ =>
      if c.isDigit then
        let (ds, r) := cs1.span Char.isDigit
        some (natOfDigits ds, r)
      else none
    | [] => none
  match intDone with
  | none => none
  | some (ip, r1) =>
    let fracDone : Option (ℚ × List Char) :=
      match r1 with
      | '.' :: r2 =>
        let (ds, r3) := r2.span Char.isDigit
        if ds.isEmpty then none
        else some ((ip : ℚ) + (natOfDigits ds : ℚ) / ((10 : ℚ) ^ ds.length), r3)
      | _ => some ((ip : ℚ), r1)
    match fracDone with
    | none => none
    | some (m, r4) =>
      let expDone : Option (ℚ × List Char) :=
        match r4 with
        | e :: r5 =>
          if e = 'e' ∨ e = 'E' then
            let (esign, r6) :=
              match r5 with
              | '+' :: r7 => (false, r7)
              | '-' :: r7 => (true, r7)
              | _ => (false, r5)
            let (ds, r8) := r6.span Char.isDigit
            if ds.isEmpty then none
            else
              let e10 : ℚ := (10 : ℚ) ^ natOfDigits ds
              some (if esign then m / e10 else m * e10, r8)
          else some (m, r4)
        | [] => some (m, [])
      match expDone with
      | none => none
      | some (v, r9) => some (if neg then -v else v, r9)

mutual

/-- Fuelled recursive-descent parser for a JSON value; returns the value and
the unconsumed input.  Every recursive call spends one unit of fuel; callers
supply fuel proportional to the input length, which is an upper bound on the
call count for the given grammar. -/
def parseValue : Nat → List Char → Option (Json × List Char)
  | 0, _ => none
  | fuel + 1, cs =>
    match skipWs cs with
    | '"' :: rest => (parseStrRest rest).map (fun p => (Json.str (String.mk p.1), p.2))
    | '{' :: rest => parseObjBody fuel (skipWs rest) []
    | '[' :: rest => parseArrBody fuel (skipWs rest) []
    | 't' :: 'r' :: 'u' :: 'e' :: rest => some (Json.bool true, rest)
    | 'f' :: 'a' :: 'l' :: 's' :: 'e' :: rest => some (Json.bool false, rest)
    | 'n' :: 'u' :: 'l' :: 'l' :: rest => some (Json.null, rest)
    | other => (parseNum other).map (fun p => (Json.num p.1, p.2))

/-- Parse the members of a JSON object, positioned after `{` (for an empty
accumulator) or after a `,` (otherwise); whitespace already skipped. -/
def parseObjBody : Nat → List Char → List (String × Json) → Option (Json × List Char)
  | 0, _, _ => none
  | _ + 1, '}' :: rest, acc => if acc.isEmpty then some (Json.obj acc, rest) else none
  | fuel + 1, '"' :: rest, acc =>
    match parseStrRest rest with
    | none => none
    | some (kcs, r1) =>
      match skipWs r1 with
      | ':' :: r2 =>
        match parseValue fuel r2 with
        | none => none
        | some (v, r3) =>
          match skipWs r3 with
          | ',' :: r4 => parseObjBody fuel (skipWs r4) (acc ++ [(String.mk kcs, v)])
          | '}' :: r4 => some (Json.obj (acc ++ [(String.mk kcs, v)]), r4)
          | _ => none
      | _ => none
  | _ + 1, _, _ => none

/-- Parse the elements of a JSON array, positioned after `[` (for an empty
accumulator) or after a `,`; whitespace already skipped. -/
def parseArrBody : Nat → List Char → List Json → Option (Json × List Char)
  | 0, _, _ => none
  | fuel + 1, cs, acc =>
    match cs with
    | ']' :: rest => if acc.isEmpty then some (Json.arr acc, rest) else none
    | _ =>
      match parseValue fuel cs with
      | none => none
      | some (v, r1) =>
        match skipWs r1 with
        | ',' :: r2 => parseArrBody fuel (skipWs r2) (acc ++ [v])
        | ']' :: r2 => some (Json.arr (acc ++ [v]), r2)
        | _ => none

end

/-- `JSON.parse` on a character list: parse one value and require only
whitespace to remain; `none` models a thrown `SyntaxError`. -/
def jsonParseL (cs : List Char) : Option Json :=
  match parseValue (2 * cs.length + 16) cs with
  | some (v, rest) => if skipWs rest = [] then some v else none
  | none => none

/-- `JSON.parse` on a string. -/
def jsonParseS (s : String) : Option Json :=
  jsonParseL s.data

/-! ## `extractJson` (asktraEngine.ts, lines 8–39): best-effort recovery of a
JSON value from model output -/

/-- The brace-depth walk of `extractJson`, started at the first `{` of the
text: consume characters, tracking nested `{`/`}` depth (the depth parameter
is the depth before the current character, an integer exactly as in the
source); return the consumed chunk up to and including the brace that returns
the depth to zero, or `none` if the input ends first. -/
def braceWalk : Int → List Char → Option (List Char)
  | _, [] => none
  | d, c :: cs =>
    if c = '{' then (braceWalk (d + 1) cs).map (c :: ·)
    else if c = '}' then
      if d - 1 = 0 then some [c]
      else (braceWalk (d - 1) cs).map (c :: ·)
    else (braceWalk d cs).map (c :: ·)

/-- The fenced-code-block extraction step of `extractJson`: if the text
contains a ` ```json `-marked fence, take what lies between that marker and
the next ` ``` ` (trimmed); otherwise, if it contains any ` ``` ` fence, take
what lies between the first fence pair (trimmed); otherwise leave the text
unchanged. -/
def fenceExtract (t : List Char) : List Char :=
  let sj : List Char := "```json".data
  let bt : List Char := "```".data
  if containsSubL sj t then
    match (splitL sj t).get? 1 with
    | some p1 => jsTrimL ((splitL bt p1).headD p1)
    | none => t
  else if containsSubL bt t then
    match (splitL bt t).get? 1 with
    | some p1 => jsTrimL ((splitL bt p1).headD p1)
    | none => t
  else t

/-- `extractJson` on a character list: trim; try a full `JSON.parse`; then
fence extraction followed by a parse; then a brace-depth scan from the first
`{` followed by a parse of the delimited slice; if everything fails, return
the empty object.  Every parse failure is caught, so the function is total. -/
def extractJsonL (text : List Char) : Json :=
  let t := jsTrimL text
  if t = [] then Json.obj []
  else
    match jsonParseL t with
    | some v => v
    | none =>
      let raw := fenceExtract t
      match jsonParseL raw with
      | some v => v
      | none =>
        let rest := raw.dropWhile (· ≠ '{')
        if rest = [] then Json.obj []
        else
          match braceWalk 0 rest with
          | none => Json.obj []
          | some chunk =>
            match jsonParseL chunk with
            | some v => v
            | none => Json.obj []

/-- `extractJson(text)` from asktraEngine.ts. -/
def extractJson (text : String) : Json :=
  extractJsonL text.data

/-! ## Engine result types and field-level extraction (asktraEngine.ts) -/

/-- Result of `inferVersion` (type `InferVersionResult`). -/
structure InferVersionResult where
  inferred_version : String
  confidence : ℚ
  evidence : List String
  ambiguity_note : String
deriving DecidableEq

/-- Result of `causalReasoning` (type `CausalResult`). -/
structure CausalResult where
  root_cause : String
  contradictions : List String
  risk : String
  fix_steps : List String
  verification : String
  sources : List String
  reasoning_trace : List String
  truth_gaps : List String
deriving DecidableEq

/-- `Array.isArray(x) ? x.filter(e => typeof e === "string") : []`. -/
def strArrOf (o : Option Json) : List String :=
  match o with
  | some (.arr xs) => xs.filterMap (fun j => match j with | .str s => some s | _ => none)
  | _ => []

/-- `typeof x === "string" ? x : dflt`. -/
def strOr (o : Option Json) (dflt : String) : String :=
  match o with
  | some (.str s) => s
  | _ => dflt

/-- `typeof x === "number" ? x : 0`. -/
def numOr0 (o : Option Json) : ℚ :=
  match o with
  | some (.num q) => q
  | _ => 0

/-- The field-by-field coercion applied by `inferVersion` to the extracted
model output (asktraEngine.ts lines 111–117). -/
def inferExtract (out : Json) : InferVersionResult :=
  { inferred_version := strOr (jGet out "inferred_version") "unknown"
    confidence := numOr0 (jGet out "confidence")
    evidence := strArrOf (jGet out "evidence")
    ambiguity_note := strOr (jGet out "ambiguity_note") "" }

/-- `inferVersion` after the model call: the raw model text is fed through
`extractJson` and the field-level coercion. -/
def inferOfRaw (raw : String) : InferVersionResult :=
  inferExtract (extractJson raw)

/-- The field-by-field coercion applied by `causalReasoning` to the extracted
model output. -/
def causalExtract (out : Json) : CausalResult :=
  { root_cause := strOr (jGet out "root_cause") ""
    contradictions := strArrOf (jGet out "contradictions")
    risk := strOr (jGet out "risk") ""
    fix_steps := strArrOf (jGet out "fix_steps")
    verification := strOr (jGet out "verification") ""
    sources := strArrOf (jGet out "sources")
    reasoning_trace := strArrOf (jGet out "reasoning_trace")
    truth_gaps := strArrOf (jGet out "truth_gaps") }

/-- `causalReasoning` after the model call. -/
def causalOfRaw (raw : String) : CausalResult :=
  causalExtract (extractJson raw)

/-- `verifyContradiction` after the model call: extract `verification_steps`
as a list of strings. -/
def verifyStepsOfRaw (raw : String) : List String :=
  strArrOf (jGet (extractJson raw) "verification_steps")

/-- `t || "(No content generated.)"`: the empty string is falsy. -/
def orPlaceholder (t : String) : String :=
  if t = "" then "(No content generated.)" else t

/-- One output field of `generateReconciliationBundle`:
`(typeof out[primary] === "string" ? out[primary] : (out[alt] as string) ?? "").trim() || "(No content generated.)"`.
If the alternate key holds a non-null, non-string value the `.trim()` call
throws a `TypeError`; that is modelled as `.error`. -/
def bundleField (out : Json) (primary alt : String) : Except String String :=
  match jGet out primary with
  | some (.str s) => .ok (orPlaceholder (jsTrimS s))
  | _ =>
    match jGet out alt with
    | some (.str s) => .ok (orPlaceholder (jsTrimS s))
    | some Json.null => .ok (orPlaceholder (jsTrimS ""))
    | none => .ok (orPlaceholder (jsTrimS ""))
    | some _ => .error "TypeError"

/-- Result of `generateReconciliationBundle` (type `ReconciliationBundle`). -/
structure ReconciliationBundle where
  post_mortem : String
  pr_diff : String
  slack_summary : String
deriving DecidableEq

/-- `generateReconciliationBundle` after the model call: extract the three
artifact fields, each from its primary key or documented alternate key, in
the source's evaluation order. -/
def bundleOfRaw (raw : String) : Except String ReconciliationBundle := do
  let out := extractJson raw
  let pm ← bundleField out "post_mortem" "incident_report"
  let pd ← bundleField out "pr_diff" "remedy_patch"
  let ss ← bundleField out "slack_summary" "stakeholder_summary"
  return { post_mortem := pm, pr_diff := pd, slack_summary := ss }

/-! ## Dataset model

The dataset loader types `slack`/`git`/`jira` only as `unknown` (the record
shapes live in the dataset JSON files, not the code); those record shapes are
modelled from the spec, and `Dataset` mirrors the loader's five optional
fields. -/

/-- Modelled from the spec: one chat message of the `slack` corpus,
`{date, channel, author, message}`; any field may be absent. -/
structure SlackItem where
  date : Option String
  channel : Option String
  author : Option String
  message : Option String
deriving DecidableEq

/-- Modelled from the spec: one commit record of the `git` corpus,
`{hash, short_hash, date, author, message, change, diff?}`. -/
structure GitItem where
  hash : Option String
  short_hash : Option String
  date : Option String
  author : Option String
  message : Option String
  change : Option String
  diff : Option String
deriving DecidableEq

/-- Modelled from the spec: one ticket record of the `jira` corpus,
`{id, title, status, comment}`. -/
structure JiraItem where
  id : Option String
  title : Option String
  status : Option String
  comment : Option String
deriving DecidableEq

/-- Modelled from the spec: the `Dataset` record loaded by the dataset
provider — five named sources, any of which may be absent. -/
structure Dataset where
  slack : Option (List SlackItem)
  git : Option (List GitItem)
  jira : Option (List JiraItem)
  docs : Option String
  releases : Option String

/-- `Array.isArray(data.slack) ? data.slack : []`. -/
def slackList (d : Dataset) : List SlackItem := d.slack.getD []

/-- `Array.isArray(data.git) ? data.git : []`. -/
def gitList (d : Dataset) : List GitItem := d.git.getD []

/-- `Array.isArray(data.jira) ? data.jira : []`. -/
def jiraList (d : Dataset) : List JiraItem := d.jira.getD []

/-! ## Source citation resolver (sourceResolver.ts) -/

/-- A resolved citation (type `SourceDetail`). -/
structure SourceDetail where
  type : String
  label : String
  content : String
deriving DecidableEq

/-- JavaScript `\w` (word character). -/
def isWordChar (c : Char) : Bool :=
  ('a' ≤ c && c ≤ 'z') || ('A' ≤ c && c ≤ 'Z') || ('0' ≤ c && c ≤ '9') || c = '_'

/-- Does the text contain `#` immediately followed by a word character
(the `#\w+` alternative of the chat regex)? -/
def hashTokenTest : List Char → Bool
  | '#' :: c :: cs => isWordChar c || hashTokenTest (c :: cs)
  | _ :: cs => hashTokenTest cs
  | [] => false

/-- The chat classification regex `/slack|#\w+/i`. -/
def chatTest (s : List Char) : Bool :=
  containsSubL "slack".data (lowerL s) || hashTokenTest s

/-- JavaScript `[\da-f]` under the `i` flag: a hexadecimal digit. -/
def isHexChar (c : Char) : Bool :=
  c.isDigit || ('a' ≤ c && c ≤ 'f') || ('A' ≤ c && c ≤ 'F')

/-- Does the text contain four consecutive hexadecimal characters
(the `[\da-f]{4,}` alternative of the commit regex)? -/
def hexRunTest : List Char → Bool
  | a :: b :: c :: d :: rest =>
    (isHexChar a && isHexChar b && isHexChar c && isHexChar d) ||
      hexRunTest (b :: c :: d :: rest)
  | _ => false

/-- The commit classification regex `/commit|[\da-f]{4,}/i`. -/
def commitTest (s : List Char) : Bool :=
  containsSubL "commit".data (lowerL s) || hexRunTest s

/-- The keywords of the ticket regex. -/
def jiraKeys : List String := ["sec", "auth", "jira", "proj"]

/-- Does a match of `(SEC|AUTH|JIRA|PROJ)-\d+` (case-insensitive) start at the
head of the (already lower-cased) text? -/
def jiraAtHead (s : List Char) : Bool :=
  jiraKeys.any fun w =>
    w.data.isPrefixOf s &&
      match s.drop w.data.length with
      | '-' :: c :: _ => c.isDigit
      | _ => false

/-- The ticket classification regex `/(SEC|AUTH|JIRA|PROJ)-\d+/i`. -/
def jiraTest (s : List Char) : Bool :=
  go (lowerL s)
where
  /-- Try a match at every starting position. -/
  go : List Char → Bool
    | [] => false
    | c :: cs => jiraAtHead (c :: cs) || go cs

/-- Chat content line `[date] #channel — author: message`. -/
def slackContent (it : SlackItem) : String :=
  "[" ++ it.date.getD "" ++ "] #" ++ it.channel.getD "" ++ " — " ++
    it.author.getD "" ++ ": " ++ it.message.getD ""

/-- The chat record search: first record whose non-empty `date` is a
substring of the citation. -/
def slackFind (s : String) : List SlackItem → Option SlackItem
  | [] => none
  | it :: rest =>
    if it.date.getD "" ≠ "" && includesS s (it.date.getD "") then some it
    else slackFind s rest

/-- The per-record commit match: with `h` the lower-cased full (or else
short) hash and `short` the lower-cased short hash (or else the first seven
characters of the full hash), require `h` non-empty and the lower-cased
citation to contain `h`, end with `h`, or contain `short`. -/
def gitMatch (s : String) (it : GitItem) : Bool :=
  let h := lowerS ((it.hash <|> it.short_hash).getD "")
  let short := lowerS ((it.short_hash <|> it.hash.map (sliceS 7)).getD "")
  h ≠ "" && (includesS (lowerS s) h || endsWithS (lowerS s) h || includesS (lowerS s) short)

/-- The commit record search. -/
def gitFind (s : String) : List GitItem → Option GitItem
  | [] => none
  | it :: rest => if gitMatch s it then some it else gitFind s rest

/-- Commit content block, with an optional trailing `Diff:` section. -/
def gitContent (it : GitItem) : String :=
  "commit " ++ (it.hash <|> it.short_hash).getD "" ++ " (" ++ it.date.getD "" ++ ") — " ++
    it.author.getD "" ++ "\n  " ++ it.message.getD "" ++ "\n  " ++ it.change.getD "" ++
    match it.diff with
    | some df => if df ≠ "" then "\n  Diff:\n  " ++ df else ""
    | none => ""

/-- The per-record ticket match: upper-cased non-empty id contained in the
upper-cased citation. -/
def jiraMatch (s : String) (it : JiraItem) : Bool :=
  let jid := upperS (it.id.getD "")
  jid ≠ "" && includesS (upperS s) jid

/-- The ticket record search. -/
def jiraFind (s : String) : List JiraItem → Option JiraItem
  | [] => none
  | it :: rest => if jiraMatch s it then some it else jiraFind s rest

/-- Ticket content block `id — title (status)\n  comment`. -/
def jiraContent (it : JiraItem) : String :=
  it.id.getD "" ++ " — " ++ it.title.getD "" ++ " (" ++ it.status.getD "" ++ ")\n  " ++
    it.comment.getD ""

/-- The document fallback content: first 800 characters of the trimmed docs,
then, when release notes are present (truthy), a separator plus their first
400 trimmed characters; an empty result is replaced by the citation label. -/
def fallbackContent (d : Dataset) (s : String) : String :=
  let c0 := sliceS 800 (jsTrimS (d.docs.getD ""))
  let c1 :=
    if d.releases ≠ none ∧ d.releases ≠ some "" then
      c0 ++ "\n\n---\n\n" ++ sliceS 400 (jsTrimS (d.releases.getD ""))
    else c0
  if c1 = "" then s else c1

/-- The chat branch of the per-citation loop: when the chat regex matches,
resolve to the date-matching chat record, else fall back to the first chat
record; with an empty chat corpus the branch produces no entry and the loop
falls through to the commit branch. -/
def chatResolve (d : Dataset) (s : String) : Option SourceDetail :=
  if chatTest s.data then
    match slackFind s (slackList d) with
    | some it => some { type := "slack", label := s, content := slackContent it }
    | none =>
      match slackList d with
      | it0 :: _ => some { type := "slack", label := s, content := slackContent it0 }
      | [] => none
  else none

/-- The commit branch: when the commit regex matches and some commit record's
hash matches the citation, resolve to it; otherwise no entry. -/
def gitResolve (d : Dataset) (s : String) : Option SourceDetail :=
  if commitTest s.data then
    match gitFind s (gitList d) with
    | some it => some { type := "git", label := s, content := gitContent it }
    | none => none
  else none

/-- The ticket branch: when the ticket regex matches and some ticket record's
id occurs in the citation, resolve to it; otherwise no entry. -/
def jiraResolve (d : Dataset) (s : String) : Option SourceDetail :=
  if jiraTest s.data then
    match jiraFind s (jiraList d) with
    | some it => some { type := "jira", label := s, content := jiraContent it }
    | none => none
  else none

/-- Resolution of one (trimmed, non-empty, unseen) citation string: the
ordered classification chain of the per-citation loop body of
`getSourceDetails` — chat, then commit, then ticket, then the document
fallback; the first branch that produces an entry wins. -/
def resolveOne (d : Dataset) (s : String) : SourceDetail :=
  match chatResolve d s with
  | some e => e
  | none =>
    match gitResolve d s with
    | some e => e
    | none =>
      match jiraResolve d s with
      | some e => e
      | none => { type := "document", label := s, content := fallbackContent d s }

/-- The de-duplicating loop of `getSourceDetails`: `seen` is the set of
already-resolved trimmed citations; empty or seen citations are skipped; a
new citation is added to `seen` and resolved. -/
def resolveLoop (d : Dataset) : List String → List String → List SourceDetail
  | _, [] => []
  | seen, raw :: rest =>
    let s := jsTrimS raw
    if s = "" ∨ s ∈ seen then resolveLoop d seen rest
    else resolveOne d s :: resolveLoop d (s :: seen) rest

/-- `getSourceDetails(sources, dataset)` from sourceResolver.ts. -/
def getSourceDetails (sources : List String) (d : Dataset) : List SourceDetail :=
  if sources.isEmpty then [] else resolveLoop d [] sources

/-! ## Rendering of JSON values (for `buildContext`)

`buildContext` renders the structured sources with `JSON.stringify(v, null, 2)`
and coerces primitive values with string concatenation.  Number formatting is
approximated (integers exactly; other rationals by a finite decimal expansion
when one exists); no claim below depends on the rendering of numbers. -/

/-- Decimal rendering of a rational: exact for integers and for fractions
with a power-of-ten denominator (the values produced by `jsonParseL`). -/
def numToStr (q : ℚ) : String :=
  if q.den = 1 then toString q.num
  else
    match (List.range 31).find? (fun k => (q * (10 : ℚ) ^ k).den = 1) with
    | some k =>
      let m := (q * (10 : ℚ) ^ k).num
      let sign := if m < 0 then "-" else ""
      let digits := toString m.natAbs
      let digits := if digits.length ≤ k then
        String.mk (List.replicate (k + 1 - digits.length) '0') ++ digits else digits
      sign ++ String.mk (digits.data.take (digits.length - k)) ++ "." ++
        String.mk (digits.data.drop (digits.length - k))
    | none => toString q.num ++ "/" ++ toString q.den

/-- JSON string-literal escaping as done by `JSON.stringify`. -/
def escapeChar (c : Char) : List Char :=
  if c = '"' then ['\\', '"']
  else if c = '\\' then ['\\', '\\']
  else if c = '\n' then ['\\', 'n']
  else if c = '\r' then ['\\', 'r']
  else if c = '\t' then ['\\', 't']
  else if c = '\x08' then ['\\', 'b']
  else if c = '\x0c' then ['\\', 'f']
  else if c.toNat < 32 then
    '\\' :: 'u' :: '0' :: '0' :: (Nat.toDigits 16 c.toNat)
  else [c]

/-- A quoted, escaped JSON string literal. -/
def quoteStr (s : String) : String :=
  "\"" ++ String.mk (s.data.flatMap escapeChar) ++ "\""

mutual

/-- `JSON.stringify(v, null, 2)` at a given indentation depth. -/
def stringifyAt (ind : Nat) : Json → String
  | .null => "null"
  | .bool b => if b then "true" else "false"
  | .num q => numToStr q
  | .str s => quoteStr s
  | .arr [] => "[]"
  | .arr (x :: xs) =>
    "[\n" ++ stringifyElems (ind + 2) (x :: xs) ++ "\n" ++
      String.mk (List.replicate ind ' ') ++ "]"
  | .obj [] => "\x7b\x7d"
  | .obj (f :: fs) =>
    "\x7b\n" ++ stringifyFields (ind + 2) (f :: fs) ++ "\n" ++
      String.mk (List.replicate ind ' ') ++ "\x7d"

/-- Stringify array elements, one per line, comma-separated. -/
def stringifyElems (ind : Nat) : List Json → String
  | [] => ""
  | [x] => String.mk (List.replicate ind ' ') ++ stringifyAt ind x
  | x :: y :: xs =>
    String.mk (List.replicate ind ' ') ++ stringifyAt ind x ++ ",\n" ++
      stringifyElems ind (y :: xs)

/-- Stringify object fields, one per line, comma-separated. -/
def stringifyFields (ind : Nat) : List (String × Json) → String
  | [] => ""
  | [(k, v)] => String.mk (List.replicate ind ' ') ++ quoteStr k ++ ": " ++ stringifyAt ind v
  | (k, v) :: f :: fs =>
    String.mk (List.replicate ind ' ') ++ quoteStr k ++ ": " ++ stringifyAt ind v ++ ",\n" ++
      stringifyFields ind (f :: fs)

end

/-- `JSON.stringify(v, null, 2)`. -/
def stringify2 (v : Json) : String := stringifyAt 0 v

mutual

/-- JavaScript string coercion `String(v)` (for primitives; arrays join their
coerced elements with commas, plain objects give `[object Object]`). -/
def jsCoerceStr : Json → String
  | .null => "null"
  | .bool b => if b then "true" else "false"
  | .num q => numToStr q
  | .str s => s
  | .arr xs => jsCoerceList xs
  | .obj _ => "[object Object]"

/-- Element coercion inside `Array.prototype.toString` (null becomes empty). -/
def jsCoerceElem : Json → String
  | .null => ""
  | .bool b => if b then "true" else "false"
  | .num q => numToStr q
  | .str s => s
  | .arr xs => jsCoerceList xs
  | .obj _ => "[object Object]"

/-- Comma-join of coerced array elements. -/
def jsCoerceList : List Json → String
  | [] => ""
  | [x] => jsCoerceElem x
  | x :: y :: xs => jsCoerceElem x ++ "," ++ jsCoerceList (y :: xs)

end

/-! ## `buildContext` (asktraEngine.ts, lines 41–65) -/

/-- The JSON view of a chat record (fields present in the loaded dataset). -/
def slackToJson (it : SlackItem) : Json :=
  Json.obj ((
    [("date", it.date), ("channel", it.channel), ("author", it.author),
     ("message", it.message)].filterMap
    (fun p => p.2.map (fun s => (p.1, Json.str s)))))

/-- The JSON view of a commit record. -/
def gitToJson (it : GitItem) : Json :=
  Json.obj ((
    [("hash", it.hash), ("short_hash", it.short_hash), ("date", it.date),
     ("author", it.author), ("message", it.message), ("change", it.change),
     ("diff", it.diff)].filterMap
    (fun p => p.2.map (fun s => (p.1, Json.str s)))))

/-- The JSON view of a ticket record. -/
def jiraToJson (it : JiraItem) : Json :=
  Json.obj ((
    [("id", it.id), ("title", it.title), ("status", it.status),
     ("comment", it.comment)].filterMap
    (fun p => p.2.map (fun s => (p.1, Json.str s)))))

/-- The value of a named source in the base dataset, as a JavaScript value
(`none` models an absent field). -/
def baseFieldJson (d : Dataset) (k : String) : Option Json :=
  if k = "slack" then d.slack.map (fun xs => Json.arr (xs.map slackToJson))
  else if k = "git" then d.git.map (fun xs => Json.arr (xs.map gitToJson))
  else if k = "jira" then d.jira.map (fun xs => Json.arr (xs.map jiraToJson))
  else if k = "docs" then d.docs.map Json.str
  else if k = "releases" then d.releases.map Json.str
  else none

/-- Is a JavaScript value `null`? -/
def isNull : Json → Bool
  | .null => true
  | _ => false

/-- Is a JavaScript value the empty string (`v === ""`)? -/
def isEmptyStr : Json → Bool
  | .str "" => true
  | _ => false

/-- The override loop of `buildContext`: an override entry is applied to the
shallow copy only when its value is neither `null`/`undefined` (`v != null`)
nor the empty string (`v !== ""`); otherwise the base dataset's value for
that source is used unchanged. -/
def effField (d : Dataset) (ov : String → Option Json) (k : String) : Option Json :=
  match ov k with
  | some v => if ¬ isNull v ∧ ¬ isEmptyStr v then some v else baseFieldJson d k
  | none => baseFieldJson d k

/-- The five recognized source names, in context order. -/
def canonicalKeys : List String := ["slack", "git", "jira", "docs", "releases"]

/-- The selected source names: a non-empty `include_sources` filters the
canonical keys by membership; an absent or empty list selects all five
(`includeSources?.length` is falsy for `undefined` and for `[]`). -/
def selectedKeys (includeSources : Option (List String)) : List String :=
  match includeSources with
  | some l => if l.isEmpty then canonicalKeys else canonicalKeys.filter (l.contains ·)
  | none => canonicalKeys

/-- One `## <Header>` context block: present when the key is selected and the
(effective) value is neither absent nor `null`; object values are rendered
with `JSON.stringify(v, null, 2)`, primitives with string coercion.  The
`docs`/`releases` blocks concatenate the raw value (string coercion). -/
def contextPart (keys : List String) (eff : String → Option Json)
    (k : String) (header : String) (raw : Bool) : Option String :=
  if keys.contains k then
    match eff k with
    | some v =>
      if isNull v then none
      else if raw then some (header ++ jsCoerceStr v)
      else some (header ++
        (match v with
         | .obj _ => stringify2 v
         | .arr _ => stringify2 v
         | _ => jsCoerceStr v))
    | none => none
  else none

/-- The `parts` list assembled by `buildContext`. -/
def buildContextParts (includeSources : Option (List String))
    (d : Dataset) (ov : String → Option Json) : List String :=
  let keys := selectedKeys includeSources
  let eff := effField d ov
  [contextPart keys eff "slack" "## Slack\n" false,
   contextPart keys eff "git" "## Git commits\n" false,
   contextPart keys eff "jira" "## Jira\n" false,
   contextPart keys eff "docs" "## Documentation\n" true,
   contextPart keys eff "releases" "## Release notes\n" true].reduceOption

/-- `buildContext(includeSources, datasetOverrides)`: the parts joined by
blank lines (`parts.join("\n\n") || ""`; the join of no parts is already the
empty string). -/
def buildContext (includeSources : Option (List String))
    (d : Dataset) (ov : String → Option Json) : String :=
  String.intercalate "\n\n" (buildContextParts includeSources d ov)

/-! ## The two pipeline entry points

`src/app/api/ask/route.ts` (synchronous) and `src/app/api/ask-stream/route.ts`
(streaming).  The remote model calls of the three prompt stages are abstracted
by an oracle giving the text returned by each call, or the thrown error; the
prompt construction (template loading, context building, prior-context and
image forwarding) only feeds those calls and does not affect the control flow
modelled here. -/

/-- The assembled result object (`AskResult`, also the payload of the
streaming `result` event). -/
structure AskResult where
  query : String
  inferred_version : String
  confidence : ℚ
  evidence : List String
  ambiguity_note : String
  root_cause : String
  contradictions : List String
  risk : String
  fix_steps : List String
  verification : String
  sources : List String
  source_details : List SourceDetail
  reasoning_trace : List String
  truth_gaps : List String
deriving DecidableEq

/-- The pipeline stages that a run may invoke. -/
inductive Stage where
  | infer : Stage
  | reason : Stage
  | verify : Stage
  | resolve : Stage
deriving DecidableEq

/-- The outcomes of the three remote model calls of one request: the returned
text, or the message of a thrown error. -/
structure Oracle where
  inferR : Except String String
  reasonR : Except String String
  verifyR : Except String String

/-- The request body fields read by the two entry points. -/
structure Body where
  query : String
  include_sources : Option (List String)
  prior_context : Option String
  image_base64 : Option String

/-- JavaScript truthiness of an optional string (`undefined` and `""` are
falsy). -/
def truthyOptStr : Option String → Bool
  | some s => s ≠ ""
  | none => false

/-- `Math.round` (half rounds toward positive infinity). -/
def roundJS (q : ℚ) : ℤ := (q + 1 / 2).floor

/-- The engine's `ask(query, …)`: version inference, causal reasoning,
citation resolution, assembly — paired with the list of stages invoked.
A failing stage propagates its error. -/
def askFn (d : Dataset) (q : String) (o : Oracle) :
    Except String AskResult × List Stage :=
  match o.inferR with
  | .error e => (.error e, [Stage.infer])
  | .ok rawV =>
    let vr := inferOfRaw rawV
    match o.reasonR with
    | .error e => (.error e, [Stage.infer, Stage.reason])
    | .ok rawC =>
      let c := causalOfRaw rawC
      let sd := getSourceDetails c.sources d
      (.ok
        { query := jsTrimS q
          inferred_version := vr.inferred_version
          confidence := vr.confidence
          evidence := vr.evidence
          ambiguity_note := vr.ambiguity_note
          root_cause := c.root_cause
          contradictions := c.contradictions
          risk := c.risk
          fix_steps := c.fix_steps
          verification := c.verification
          sources := c.sources
          source_details := sd
          reasoning_trace := c.reasoning_trace
          truth_gaps := c.truth_gaps },
        [Stage.infer, Stage.reason, Stage.resolve])

/-- The synchronous `POST /api/ask` route: trim the query, reject an empty
one before any remote call, otherwise run `ask`. -/
def askRoute (d : Dataset) (b : Body) (o : Oracle) :
    Except String AskResult × List Stage :=
  let q := jsTrimS b.query
  if q = "" then (.error "query required", [])
  else askFn d q o

/-- One server-sent event of the streaming route. -/
inductive Ev where
  | step (message : String) : Ev
  | result (r : AskResult) : Ev
  | error (detail : String) : Ev
deriving DecidableEq

/-- Is the event a progress (`step`) event? -/
def Ev.isStep : Ev → Bool
  | .step _ => true
  | _ => false

/-- Is the event terminal (`result` or `error`)? -/
def Ev.isTerminal : Ev → Bool
  | .step _ => false
  | _ => true

/-- The source-list narration of the first step message. -/
def sourcesMsg (includeSources : Option (List String)) : String :=
  match includeSources with
  | some l => if l.isEmpty then "Slack, Git, Jira, docs, releases"
              else String.intercalate ", " l
  | none => "Slack, Git, Jira, docs, releases"

/-- The streaming `POST /api/ask-stream` route: the ordered event sequence it
enqueues before closing the stream, paired with the list of pipeline stages
invoked.  An empty query yields a single `error` event; a failure of a
mandatory stage is caught by the outer handler and emitted as the terminal
`error` event; a failure of the conditional verification stage is caught by
the inner handler and only narrated. -/
def streamRun (d : Dataset) (b : Body) (o : Oracle) : List Ev × List Stage :=
  let q := jsTrimS b.query
  if q = "" then ([Ev.error "query required"], [])
  else
    let steps0 : List Ev :=
      [Ev.step ("Loading dataset (" ++ sourcesMsg b.include_sources ++ ")…")] ++
      (if truthyOptStr b.image_base64 then
        [Ev.step "Including attached image in analysis (multimodal)…"] else []) ++
      (if truthyOptStr b.prior_context then
        [Ev.step "Building on prior session knowledge…"] else []) ++
      [Ev.step "Inferring version from timestamps and release notes…"]
    match o.inferR with
    | .error e => (steps0 ++ [Ev.error e], [Stage.infer])
    | .ok rawV =>
      let vr := inferOfRaw rawV
      let steps1 := steps0 ++
        [Ev.step ("✓ Inferred version: " ++ vr.inferred_version ++ " (" ++
          toString (roundJS (vr.confidence * 100)) ++ "% confidence)")] ++
        (vr.evidence.take 3).map (fun ev => Ev.step ("  Evidence: " ++ ev)) ++
        [Ev.step "Loading sources into context for causal reasoning…",
         Ev.step "Reasoning over Slack intent vs Git implementation vs docs…"]
      match o.reasonR with
      | .error e => (steps1 ++ [Ev.error e], [Stage.infer, Stage.reason])
      | .ok rawC =>
        let c := causalOfRaw rawC
        let steps2 := steps1 ++
          [Ev.step "✓ Causal analysis complete. Extracting reasoning trace…"] ++
          c.reasoning_trace.map (fun s => Ev.step ("  " ++ s))
        let verifyEvs : List Ev :=
          if c.contradictions.isEmpty then []
          else
            [Ev.step "Verifying inferred truth (self-correction loop)…"] ++
            match o.verifyR with
            | .ok rawW =>
              (verifyStepsOfRaw rawW).map (fun m => Ev.step ("  " ++ m)) ++
                [Ev.step "✓ Verification complete. Documentation outlier confirmed."]
            | .error _ => [Ev.step "  (Verification skipped)"]
        let sd := getSourceDetails c.sources d
        let res : AskResult :=
          { query := q
            inferred_version := vr.inferred_version
            confidence := vr.confidence
            evidence := vr.evidence
            ambiguity_note := vr.ambiguity_note
            root_cause := c.root_cause
            contradictions := c.contradictions
            risk := c.risk
            fix_steps := c.fix_steps
            verification := c.verification
            sources := c.sources
            source_details := sd
            reasoning_trace := c.reasoning_trace
            truth_gaps := c.truth_gaps }
        (steps2 ++ verifyEvs ++
          [Ev.step "Resolving source citations (Slack, Git, Jira, docs)…",
           Ev.step "✓ Sources resolved. Building answer…",
           Ev.result res],
         [Stage.infer, Stage.reason] ++
           (if c.contradictions.isEmpty then [] else [Stage.verify]) ++ [Stage.resolve])

/-! ## Helper lemmas on the field-level coercions -/

/-- When the looked-up value is not a string, `strOr` yields the default. -/
theorem strOr_of_not_str {o : Option Json} {dflt : String}
    (h : ∀ s, o ≠ some (Json.str s)) : strOr o dflt = dflt := by
  cases o with
  | none => rfl
  | some j => cases j with
    | str s => exact absurd rfl (h s)
    | _ => rfl

/-- When the looked-up value is not a number, `numOr0` yields zero. -/
theorem numOr0_of_not_num {o : Option Json}
    (h : ∀ q, o ≠ some (Json.num q)) : numOr0 o = 0 := by
  cases o with
  | none => rfl
  | some j => cases j with
    | num q => exact absurd rfl (h q)
    | _ => rfl

/-- When the looked-up value is not an array, `strArrOf` yields the empty list. -/
theorem strArrOf_of_not_arr {o : Option Json}
    (h : ∀ xs, o ≠ some (Json.arr xs)) : strArrOf o = [] := by
  cases o with
  | none => rfl
  | some j => cases j with
    | arr xs => exact absurd rfl (h xs)
    | _ => rfl

/-! ## C4 — degenerate model output in version inference -/

/-- C4: on the degenerate model output `{}` the version-inference extraction
returns the defaults `{version: "unknown", confidence: 0, evidence: [],
ambiguityNote: ""}`; and in general each field of the extraction is total,
falling back to its default whenever the corresponding key is missing or
holds a value of the wrong type. -/
theorem inferVersion_degenerate_defaults :
    inferOfRaw "\x7b\x7d" = ⟨"unknown", 0, [], ""⟩ ∧
    ∀ out : Json,
      ((∀ s, jGet out "inferred_version" ≠ some (Json.str s)) →
        (inferExtract out).inferred_version = "unknown") ∧
      ((∀ q, jGet out "confidence" ≠ some (Json.num q)) →
        (inferExtract out).confidence = 0) ∧
      ((∀ xs, jGet out "evidence" ≠ some (Json.arr xs)) →
        (inferExtract out).evidence = []) ∧
      ((∀ s, jGet out "ambiguity_note" ≠ some (Json.str s)) →
        (inferExtract out).ambiguity_note = "") := by
  refine ⟨rfl, fun out => ⟨?_, ?_, ?_, ?_⟩⟩
  · exact fun h => strOr_of_not_str h
  · exact fun h => numOr0_of_not_num h
  · exact fun h => strArrOf_of_not_arr h
  · exact fun h => strOr_of_not_str h

/-- Witness for C4: the general defaulting arms applied to a model output
whose fields are present but mistyped. -/
theorem inferVersion_degenerate_defaults_witness :
    (inferExtract (Json.obj [("confidence", Json.str "high"),
      ("evidence", Json.str "e")])).confidence = 0 ∧
    (inferExtract (Json.obj [("confidence", Json.str "high"),
      ("evidence", Json.str "e")])).evidence = [] ∧
    (inferExtract (Json.obj [("confidence", Json.str "high"),
      ("evidence", Json.str "e")])).inferred_version = "unknown" := by
  refine ⟨?_, ?_, ?_⟩
  · exact (inferVersion_degenerate_defaults.2 _).2.1 (fun q h => by simp [jGet] at h)
  · exact (inferVersion_degenerate_defaults.2 _).2.2.1 (fun xs h => by simp [jGet] at h)
  · exact (inferVersion_degenerate_defaults.2 _).1 (fun s h => by simp [jGet] at h)

/-! ## C8 — the confidence field is passed through unclamped -/

/-- Counterexample for C8 as stated: a model output with a numeric
`confidence` of `5` flows through version inference unchanged, so the
produced confidence is not in the interval `[0,1]`. -/
theorem inferVersion_confidence_counterexample :
    (inferOfRaw "\x7b\"confidence\": 5\x7d").confidence = 5 ∧
    ¬ ((inferOfRaw "\x7b\"confidence\": 5\x7d").confidence ≤ 1) := by
  constructor
  · rfl
  · rw [show (inferOfRaw "\x7b\"confidence\": 5\x7d").confidence = 5 from rfl]
    norm_num

/-- C8 (amended): the confidence produced by version inference lies in
`[0,1]` provided the model's `confidence` field, when it is a number at all,
lies in `[0,1]`; a missing or mistyped field defaults to `0`.  The code does
not clamp a numeric value. -/
theorem inferVersion_confidence_bounds (raw : String)
    (h : ∀ q : ℚ, jGet (extractJson raw) "confidence" = some (Json.num q) →
      0 ≤ q ∧ q ≤ 1) :
    0 ≤ (inferOfRaw raw).confidence ∧ (inferOfRaw raw).confidence ≤ 1 := by
  have hc : (inferOfRaw raw).confidence = numOr0 (jGet (extractJson raw) "confidence") := rfl
  rw [hc]
  cases hj : jGet (extractJson raw) "confidence" with
  | none => simp [numOr0]
  | some j =>
    cases j with
    | num q => simpa [numOr0] using h q hj
    | _ => simp [numOr0]

/-- Witness for C8 (amended) at the degenerate model output `{}`. -/
theorem inferVersion_confidence_bounds_witness :
    0 ≤ (inferOfRaw "\x7b\x7d").confidence ∧ (inferOfRaw "\x7b\x7d").confidence ≤ 1 :=
  inferVersion_confidence_bounds "\x7b\x7d" (fun q h => by
    rw [show jGet (extractJson "\x7b\x7d") "confidence" = none from rfl] at h
    exact Option.noConfusion h)

/-! ## C6 — reconciliation-bundle extraction -/

/-- C6: on the model output
`{"incident_report": "x", "remedy_patch": "", "slack_summary": null}` the
bundle generator produces `{post_mortem: "x", pr_diff: "(No content
generated.)", slack_summary: "(No content generated.)"}`; and in general
each output field is taken from its primary key, else its alternate key,
trimmed, with the literal placeholder substituted when the result is empty
(or the alternate key is null/missing). -/
theorem bundle_alternate_keys :
    bundleOfRaw "\x7b\"incident_report\": \"x\", \"remedy_patch\": \"\", \"slack_summary\": null\x7d" =
      .ok ⟨"x", "(No content generated.)", "(No content generated.)"⟩ ∧
    (∀ (out : Json) (p a s : String), jGet out p = some (Json.str s) →
      bundleField out p a = .ok (orPlaceholder (jsTrimS s))) ∧
    (∀ (out : Json) (p a s : String), (∀ t, jGet out p ≠ some (Json.str t)) →
      jGet out a = some (Json.str s) →
      bundleField out p a = .ok (orPlaceholder (jsTrimS s))) ∧
    (∀ (out : Json) (p a : String), (∀ t, jGet out p ≠ some (Json.str t)) →
      (jGet out a = none ∨ jGet out a = some Json.null) →
      bundleField out p a = .ok "(No content generated.)") := by
  refine ⟨rfl, ?_, ?_, ?_⟩
  · intro out p a s hp
    simp [bundleField, hp]
  · intro out p a s hp ha
    cases hj : jGet out p with
    | none => simp [bundleField, hj, ha]
    | some j => cases j with
      | str t => exact absurd hj (hp t)
      | _ => simp [bundleField, hj, ha]
  · intro out p a hp ha
    cases hj : jGet out p with
    | none =>
      rcases ha with ha | ha
      · simp [bundleField, hj, ha]; rfl
      · simp [bundleField, hj, ha]; rfl
    | some j => cases j with
      | str t => exact absurd hj (hp t)
      | _ =>
        rcases ha with ha | ha
        · simp [bundleField, hj, ha]; rfl
        · simp [bundleField, hj, ha]; rfl

/-- Witness for C6: the general key-fallback arms applied at concrete model
outputs. -/
theorem bundle_alternate_keys_witness :
    bundleField (Json.obj [("post_mortem", Json.str " body ")]) "post_mortem" "incident_report" =
      .ok "body" ∧
    bundleField (Json.obj [("incident_report", Json.str "alt")]) "post_mortem" "incident_report" =
      .ok "alt" ∧
    bundleField (Json.obj []) "pr_diff" "remedy_patch" = .ok "(No content generated.)" := by
  refine ⟨?_, ?_, ?_⟩
  · exact bundle_alternate_keys.2.1 (Json.obj [("post_mortem", Json.str " body ")])
      "post_mortem" "incident_report" " body " rfl
  · exact bundle_alternate_keys.2.2.1 (Json.obj [("incident_report", Json.str "alt")])
      "post_mortem" "incident_report" "alt"
      (fun t h => by
        rw [show jGet (Json.obj [("incident_report", Json.str "alt")]) "post_mortem" = none
          from rfl] at h
        exact Option.noConfusion h) rfl
  · exact bundle_alternate_keys.2.2.2 (Json.obj []) "pr_diff" "remedy_patch"
      (fun t h => by
        rw [show jGet (Json.obj []) "pr_diff" = none from rfl] at h
        exact Option.noConfusion h) (Or.inl rfl)

/-! ## C10 — dataset overrides: blank values ignored, others applied -/

/-- C10: a dataset override whose value is `null` or the empty string is
ignored by `buildContext` — the base dataset's content for that source is
used unchanged, so a caller cannot blank out a source via an override — while
an override with any other value replaces the source's content for the
request; the base dataset itself is a value that the override application
never modifies (the code mutates only a shallow copy). -/
theorem overrides_blank_ignored (d : Dataset) (ov : String → Option Json) (k : String) :
    ((ov k = some Json.null ∨ ov k = some (Json.str "")) →
      effField d ov k = baseFieldJson d k) ∧
    (∀ v, ov k = some v → isNull v = false → isEmptyStr v = false →
      effField d ov k = some v) ∧
    (ov k = none → effField d ov k = baseFieldJson d k) := by
  refine ⟨?_, ?_, ?_⟩
  · rintro (h | h) <;> simp [effField, h, isNull, isEmptyStr]
  · intro v hv h1 h2
    simp [effField, hv, h1, h2]
  · intro h
    simp [effField, h]

/-- Witness for C10 at a concrete base dataset and override map. -/
theorem overrides_blank_ignored_witness :
    effField ⟨none, none, none, some "base docs", none⟩
      (fun k => if k = "docs" then some (Json.str "") else none) "docs" =
      some (Json.str "base docs") ∧
    effField ⟨none, none, none, some "base docs", none⟩
      (fun k => if k = "docs" then some (Json.str "override") else none) "docs" =
      some (Json.str "override") := by
  constructor
  · have h := (overrides_blank_ignored ⟨none, none, none, some "base docs", none⟩
      (fun k => if k = "docs" then some (Json.str "") else none) "docs").1
    rw [h (Or.inr rfl)]
    rfl
  · exact (overrides_blank_ignored _ _ _).2.1 (Json.str "override") rfl rfl rfl

/-! ## C9 — `include_sources` selection in `buildContext` -/

/-- A selected, present, non-null source always yields a context part. -/
theorem contextPart_some (keys : List String) (eff : String → Option Json)
    (k header : String) (raw : Bool) (hk : keys.contains k = true) {v : Json}
    (hv : eff k = some v) (hnull : isNull v = false) :
    ∃ s, contextPart keys eff k header raw = some s := by
  cases v <;> simp_all [contextPart, isNull] <;> cases raw <;> simp [hk]

/-- C9: `buildContext` treats an empty `include_sources` list like an absent
one — all five sources are selected (five parts when all are present and
non-null) — while a non-empty list selects exactly its recognized names:
unrecognized names are silently ignored, and a list of only unknown names
yields an empty context. -/
theorem include_sources_selection :
    (∀ (d : Dataset) (ov : String → Option Json),
      buildContextParts (some []) d ov = buildContextParts none d ov) ∧
    (∀ (d : Dataset) (ov : String → Option Json),
      (∀ k ∈ canonicalKeys, ∃ v, effField d ov k = some v ∧ isNull v = false) →
      (buildContextParts (some []) d ov).length = 5) ∧
    (∀ (d : Dataset) (ov : String → Option Json) (l : List String) (x : String),
      l ≠ [] → x ∉ canonicalKeys →
      buildContextParts (some (x :: l)) d ov = buildContextParts (some l) d ov) ∧
    (∀ (d : Dataset) (ov : String → Option Json) (l : List String),
      l ≠ [] → (∀ k ∈ l, k ∉ canonicalKeys) →
      buildContext (some l) d ov = "") := by
  have hsel : ∀ (l : List String) (x : String), l ≠ [] → x ∉ canonicalKeys →
      selectedKeys (some (x :: l)) = selectedKeys (some l) := by
    intro l x hl hx
    have hl' : l.isEmpty = false := by
      cases l with
      | nil => exact absurd rfl hl
      | cons a as => rfl
    simp only [selectedKeys, List.isEmpty_cons, hl', Bool.false_eq_true, if_false]
    refine List.filter_congr ?_
    intro k hk
    have hxk : x ≠ k := fun h => hx (h ▸ hk)
    simp [List.contains_cons, hxk.symm]
  refine ⟨fun d ov => rfl, ?_, ?_, ?_⟩
  · intro d ov h
    rcases h "slack" (by simp [canonicalKeys]) with ⟨v1, hv1, hn1⟩
    rcases h "git" (by simp [canonicalKeys]) with ⟨v2, hv2, hn2⟩
    rcases h "jira" (by simp [canonicalKeys]) with ⟨v3, hv3, hn3⟩
    rcases h "docs" (by simp [canonicalKeys]) with ⟨v4, hv4, hn4⟩
    rcases h "releases" (by simp [canonicalKeys]) with ⟨v5, hv5, hn5⟩
    obtain ⟨s1, e1⟩ := contextPart_some (selectedKeys (some [])) (effField d ov)
      "slack" "## Slack\n" false (by decide) hv1 hn1
    obtain ⟨s2, e2⟩ := contextPart_some (selectedKeys (some [])) (effField d ov)
      "git" "## Git commits\n" false (by decide) hv2 hn2
    obtain ⟨s3, e3⟩ := contextPart_some (selectedKeys (some [])) (effField d ov)
      "jira" "## Jira\n" false (by decide) hv3 hn3
    obtain ⟨s4, e4⟩ := contextPart_some (selectedKeys (some [])) (effField d ov)
      "docs" "## Documentation\n" true (by decide) hv4 hn4
    obtain ⟨s5, e5⟩ := contextPart_some (selectedKeys (some [])) (effField d ov)
      "releases" "## Release notes\n" true (by decide) hv5 hn5
    simp [buildContextParts, e1, e2, e3, e4, e5, List.reduceOption]
  · intro d ov l x hl hx
    simp only [buildContextParts, hsel l x hl hx]
  · intro d ov l hl h
    have hkeys : selectedKeys (some l) = [] := by
      simp only [selectedKeys, if_neg hl, List.isEmpty_eq_true]
      refine List.filter_eq_nil_iff.mpr ?_
      intro k hk
      intro hc
      exact h k (by simpa using hc) hk
    have hparts : buildContextParts (some l) d ov = [] := by
      simp [buildContextParts, contextPart, hkeys]
    simp only [buildContext, hparts]
    rfl

/-- Witness for C9: the selection arms applied at a concrete dataset,
override map and source lists. -/
theorem include_sources_selection_witness :
    (buildContextParts (some []) ⟨none, none, none, some "D", some "R"⟩
        (fun k => if k = "slack" then some (Json.arr []) else
          if k = "git" then some (Json.str "G") else
          if k = "jira" then some (Json.str "J") else none)).length = 5 ∧
    buildContextParts (some ["nosuch", "docs"]) ⟨none, none, none, some "D", some "R"⟩
        (fun _ => none) =
      buildContextParts (some ["docs"]) ⟨none, none, none, some "D", some "R"⟩
        (fun _ => none) ∧
    buildContext (some ["nosuch"]) ⟨none, none, none, some "D", some "R"⟩
      (fun _ => none) = "" := by
  refine ⟨?_, ?_, ?_⟩
  · refine include_sources_selection.2.1 _ _ ?_
    intro k hk
    fin_cases hk
    · exact ⟨Json.arr [], rfl, rfl⟩
    · exact ⟨Json.str "G", rfl, rfl⟩
    · exact ⟨Json.str "J", rfl, rfl⟩
    · exact ⟨Json.str "D", rfl, rfl⟩
    · exact ⟨Json.str "R", rfl, rfl⟩
  · exact include_sources_selection.2.2.1 _ _ ["docs"] "nosuch" (by simp) (by decide)
  · exact include_sources_selection.2.2.2 _ _ ["nosuch"] (by simp)
      (by intro k hk; simp at hk; subst hk; decide)

/-- A `result` event never occurs among mapped `step` events. -/
@[simp]
theorem result_not_mem_map_step (r : AskResult) (g : String → String) (l : List String) :
    Ev.result r ∉ List.map (fun s => Ev.step (g s)) l := by
  intro h
  rcases List.mem_map.mp h with ⟨a, _, ha⟩
  exact Ev.noConfusion ha

/-- A `result` event never occurs among a prefix of mapped `step` events. -/
@[simp]
theorem result_not_mem_take_map (r : AskResult) (n : Nat) (g : String → String)
    (l : List String) :
    Ev.result r ∉ List.take n (List.map (fun s => Ev.step (g s)) l) := by
  intro h
  exact result_not_mem_map_step r g l (List.take_subset _ _ h)

/-! ## C2 — streaming emits exactly one terminal event, after all steps -/

/-- Decomposition helper: a list of steps followed by one terminal event. -/
theorem streamShape1 (A : List Ev) (t : Ev) (hA : A.all Ev.isStep = true)
    (ht : t.isTerminal = true) :
    ∃ pre last, A ++ [t] = pre ++ [last] ∧ last.isTerminal = true ∧
      ∀ e ∈ pre, e.isStep = true :=
  ⟨A, t, rfl, ht, fun e he => List.all_eq_true.mp hA e he⟩

/-- Decomposition helper for the success branch of the stream. -/
theorem streamShape2 (A B : List Ev) (m1 m2 : String) (t : Ev)
    (hA : A.all Ev.isStep = true) (hB : B.all Ev.isStep = true)
    (ht : t.isTerminal = true) :
    ∃ pre last, A ++ B ++ [Ev.step m1, Ev.step m2, t] = pre ++ [last] ∧
      last.isTerminal = true ∧ ∀ e ∈ pre, e.isStep = true := by
  refine ⟨A ++ B ++ [Ev.step m1, Ev.step m2], t, by simp, ht, ?_⟩
  intro e he
  simp only [List.mem_append, List.mem_cons, List.not_mem_nil, or_false] at he
  rcases he with (he | he) | he | he
  · exact List.all_eq_true.mp hA e he
  · exact List.all_eq_true.mp hB e he
  · subst he; rfl
  · subst he; rfl

/-- C2: every run of the streaming entry point emits exactly one terminal
event (`result` or `error`, never both), all `step` events precede it, and it
is the final event before the stream closes. -/
theorem stream_single_terminal (d : Dataset) (b : Body) (o : Oracle) :
    (∃ pre last, (streamRun d b o).1 = pre ++ [last] ∧ last.isTerminal = true ∧
      ∀ e ∈ pre, e.isStep = true) ∧
    (∀ e : Ev, e.isTerminal = !e.isStep) := by
  refine ⟨?_, fun e => by cases e <;> rfl⟩
  unfold streamRun
  by_cases hq : jsTrimS b.query = ""
  · rw [if_pos hq]
    exact ⟨[], Ev.error "query required", rfl, rfl, by simp⟩
  · rw [if_neg hq]
    cases hI : o.inferR with
    | error e =>
      refine streamShape1 _ _ ?_ rfl
      by_cases h1 : truthyOptStr b.image_base64 <;>
        by_cases h2 : truthyOptStr b.prior_context <;>
          simp [h1, h2, Ev.isStep]
    | ok rawV =>
      cases hR : o.reasonR with
      | error e =>
        refine streamShape1 _ _ ?_ rfl
        by_cases h1 : truthyOptStr b.image_base64 <;>
          by_cases h2 : truthyOptStr b.prior_context <;>
            simp [h1, h2, Ev.isStep, List.all_append, List.all_map] <;>
            (intro x hx; rcases List.mem_map.mp (List.take_subset _ _ hx) with ⟨a, ha, rfl⟩; rfl)
      | ok rawC =>
        refine streamShape2 _ _ _ _ _ ?_ ?_ rfl
        · by_cases h1 : truthyOptStr b.image_base64 <;>
            by_cases h2 : truthyOptStr b.prior_context <;>
              simp [h1, h2, Ev.isStep, List.all_append, List.all_map] <;>
            (intro x hx; rcases List.mem_map.mp (List.take_subset _ _ hx) with ⟨a, ha, rfl⟩; rfl)
        · by_cases hc : (causalOfRaw rawC).contradictions.isEmpty
          · simp [hc]
          · cases hV : o.verifyR <;>
              simp [hc, hV, Ev.isStep, List.all_append, List.all_map]

/-- Witness for C2 at a concrete run (non-empty query, successful stages,
one contradiction so the verification narration is exercised). -/
theorem stream_single_terminal_witness :
    (∃ pre last,
      (streamRun ⟨none, none, none, none, none⟩
        ⟨"why", none, none, none⟩
        ⟨.ok "\x7b\x7d", .ok "\x7b\"contradictions\": [\"c1\"]\x7d", .ok "\x7b\x7d"⟩).1 =
        pre ++ [last] ∧ last.isTerminal = true ∧ ∀ e ∈ pre, e.isStep = true) ∧
    (∀ e : Ev, e.isTerminal = !e.isStep) :=
  stream_single_terminal ⟨none, none, none, none, none⟩ ⟨"why", none, none, none⟩
    ⟨.ok "\x7b\x7d", .ok "\x7b\"contradictions\": [\"c1\"]\x7d", .ok "\x7b\x7d"⟩

/-! ## C7 — the synchronous entry point never verifies; both assemble the
same result -/

/-- `trim()` is idempotent. -/
theorem jsTrimL_idem (cs : List Char) : jsTrimL (jsTrimL cs) = jsTrimL cs := by
  have hdef : ∀ l : List Char, jsTrimL l = List.rdropWhile isJsWS (l.dropWhile isJsWS) :=
    fun l => rfl
  rw [hdef, hdef]
  have h1 : (List.rdropWhile isJsWS (cs.dropWhile isJsWS)).dropWhile isJsWS =
      List.rdropWhile isJsWS (cs.dropWhile isJsWS) := by
    rw [List.dropWhile_eq_self_iff]
    intro hl
    have hpre := List.rdropWhile_prefix isJsWS (cs.dropWhile isJsWS)
    have hlen : 0 < (cs.dropWhile isJsWS).length :=
      Nat.lt_of_lt_of_le hl hpre.length_le
    have hget := List.IsPrefix.getElem hpre hl
    have h0 := List.dropWhile_get_zero_not isJsWS cs hlen
    simpa [List.get_eq_getElem, hget] using h0
  rw [h1]
  exact List.rdropWhile_idempotent _ _

/-- `s.trim().trim() = s.trim()`. -/
theorem jsTrimS_idem (s : String) : jsTrimS (jsTrimS s) = jsTrimS s :=
  congrArg String.mk (jsTrimL_idem s.data)

/-- C7: the synchronous entry point runs only the infer, reason and resolve
stages — never contradiction verification — while the streaming entry point
runs verification exactly when the causal stage succeeded with a non-empty
contradiction list; and whenever the streaming run emits a `result` event,
the synchronous run on the same model responses returns exactly that result
object. -/
theorem sync_skips_verification (d : Dataset) (b : Body) (o : Oracle) :
    Stage.verify ∉ (askRoute d b o).2 ∧
    (Stage.verify ∈ (streamRun d b o).2 ↔
      jsTrimS b.query ≠ "" ∧ ∃ rawV rawC, o.inferR = .ok rawV ∧ o.reasonR = .ok rawC ∧
        (causalOfRaw rawC).contradictions ≠ []) ∧
    (∀ r, Ev.result r ∈ (streamRun d b o).1 → (askRoute d b o).1 = .ok r) := by
  unfold askRoute streamRun
  by_cases hq : jsTrimS b.query = ""
  · refine ⟨?_, ?_, ?_⟩ <;> simp [hq]
  · simp only [if_neg hq]
    cases hI : o.inferR with
    | error e =>
      refine ⟨?_, ?_, ?_⟩
      · unfold askFn
        rw [hI]
        simp
      · simp [hI, hq]
      · intro r hr
        exfalso
        by_cases h1 : truthyOptStr b.image_base64 <;>
          by_cases h2 : truthyOptStr b.prior_context <;>
            simp [h1, h2] at hr
    | ok rawV =>
      cases hR : o.reasonR with
      | error e =>
        refine ⟨?_, ?_, ?_⟩
        · unfold askFn
          rw [hI, hR]
          simp
        · simp [hI, hR, hq]
        · intro r hr
          exfalso
          by_cases h1 : truthyOptStr b.image_base64 <;>
            by_cases h2 : truthyOptStr b.prior_context <;>
              simp [h1, h2, List.mem_map] at hr
      | ok rawC =>
        refine ⟨?_, ?_, ?_⟩
        · unfold askFn
          rw [hI, hR]
          simp
        · constructor
          · intro hmem
            by_cases hc : (causalOfRaw rawC).contradictions.isEmpty
            · exfalso
              simp [hc] at hmem
            · exact ⟨hq, rawV, rawC, rfl, rfl, fun hnil => hc (by simp [hnil])⟩
          · rintro ⟨-, rawV', rawC', hV', hC', hcon⟩
            have hCC : rawC' = rawC := ((Except.ok.injEq _ _).mp hC').symm
            rw [hCC] at hcon
            have hc : (causalOfRaw rawC).contradictions.isEmpty = false := by
              cases hcc : (causalOfRaw rawC).contradictions with
              | nil => exact absurd hcc hcon
              | cons a as => rfl
            simp [hc]
        · intro r hr
          have hres : r = AskResult.mk (jsTrimS b.query)
              (inferOfRaw rawV).inferred_version (inferOfRaw rawV).confidence
              (inferOfRaw rawV).evidence (inferOfRaw rawV).ambiguity_note
              (causalOfRaw rawC).root_cause (causalOfRaw rawC).contradictions
              (causalOfRaw rawC).risk (causalOfRaw rawC).fix_steps
              (causalOfRaw rawC).verification (causalOfRaw rawC).sources
              (getSourceDetails (causalOfRaw rawC).sources d)
              (causalOfRaw rawC).reasoning_trace (causalOfRaw rawC).truth_gaps := by
            by_cases h1 : truthyOptStr b.image_base64 <;>
              by_cases h2 : truthyOptStr b.prior_context <;>
                by_cases hc : (causalOfRaw rawC).contradictions.isEmpty <;>
                  first
                  | (simp [h1, h2, hc] at hr; exact hr)
                  | (cases hV : o.verifyR <;> simp [h1, h2, hc, hV] at hr <;> exact hr)
          subst hres
          unfold askFn
          rw [hI, hR]
          simp [jsTrimS_idem]

/-- Witness for C7 at a concrete run whose streaming side emits a result and
exercises the verification stage. -/
theorem sync_skips_verification_witness :
    (askRoute ⟨none, none, none, none, none⟩ ⟨"why", none, none, none⟩
        ⟨.ok "\x7b\x7d", .ok "\x7b\"contradictions\": [\"c1\"]\x7d", .ok "\x7b\x7d"⟩).1 =
      .ok { query := "why"
            inferred_version := "unknown"
            confidence := 0
            evidence := []
            ambiguity_note := ""
            root_cause := ""
            contradictions := ["c1"]
            risk := ""
            fix_steps := []
            verification := ""
            sources := []
            source_details := []
            reasoning_trace := []
            truth_gaps := [] } ∧
    Stage.verify ∈ (streamRun ⟨none, none, none, none, none⟩ ⟨"why", none, none, none⟩
        ⟨.ok "\x7b\x7d", .ok "\x7b\"contradictions\": [\"c1\"]\x7d", .ok "\x7b\x7d"⟩).2 := by
  constructor
  · exact (sync_skips_verification _ _ _).2.2 _ (by
      rw [show (streamRun ⟨none, none, none, none, none⟩ ⟨"why", none, none, none⟩
        ⟨.ok "\x7b\x7d", .ok "\x7b\"contradictions\": [\"c1\"]\x7d", .ok "\x7b\x7d"⟩).1 =
        (streamRun ⟨none, none, none, none, none⟩ ⟨"why", none, none, none⟩
        ⟨.ok "\x7b\x7d", .ok "\x7b\"contradictions\": [\"c1\"]\x7d", .ok "\x7b\x7d"⟩).1 from rfl]
      decide)
  · exact (sync_skips_verification _ _ _).2.1.mpr (by
      refine ⟨by decide, "\x7b\x7d", "\x7b\"contradictions\": [\"c1\"]\x7d", rfl, rfl, by decide⟩)

/-! ## C5 — order-preserving de-duplication of citations -/

/-- First-occurrence-preserving de-duplication relative to an already-seen
set: an independent characterization of the resolver's de-duplication. -/
def dedupFirst (seen : List String) : List String → List String
  | [] => []
  | x :: xs => if x ∈ seen then dedupFirst seen xs else x :: dedupFirst (x :: seen) xs

/-- The chat branch only emits entries labelled by the citation. -/
theorem chatResolve_label {d : Dataset} {s : String} {e : SourceDetail}
    (h : chatResolve d s = some e) : e.label = s := by
  unfold chatResolve at h
  split at h
  · split at h
    · cases h; rfl
    · split at h
      · cases h; rfl
      · exact Option.noConfusion h
  · exact Option.noConfusion h

/-- The commit branch only emits entries labelled by the citation. -/
theorem gitResolve_label {d : Dataset} {s : String} {e : SourceDetail}
    (h : gitResolve d s = some e) : e.label = s := by
  unfold gitResolve at h
  split at h
  · split at h
    · cases h; rfl
    · exact Option.noConfusion h
  · exact Option.noConfusion h

/-- The ticket branch only emits entries labelled by the citation. -/
theorem jiraResolve_label {d : Dataset} {s : String} {e : SourceDetail}
    (h : jiraResolve d s = some e) : e.label = s := by
  unfold jiraResolve at h
  split at h
  · split at h
    · cases h; rfl
    · exact Option.noConfusion h
  · exact Option.noConfusion h

/-- The label of every resolved entry is the trimmed citation itself. -/
theorem resolveOne_label (d : Dataset) (s : String) : (resolveOne d s).label = s := by
  unfold resolveOne
  cases hc : chatResolve d s with
  | some e => exact chatResolve_label hc
  | none =>
    cases hg : gitResolve d s with
    | some e => exact gitResolve_label hg
    | none =>
      cases hj : jiraResolve d s with
      | some e => exact jiraResolve_label hj
      | none => rfl

/-- The resolver loop's labels are exactly the first-occurrence
de-duplication of the trimmed, non-empty citations. -/
theorem resolveLoop_labels (d : Dataset) (l : List String) (seen : List String) :
    (resolveLoop d seen l).map SourceDetail.label =
      dedupFirst seen ((l.map jsTrimS).filter (· ≠ "")) := by
  induction l generalizing seen with
  | nil => rfl
  | cons raw rest ih =>
    by_cases h0 : jsTrimS raw = ""
    · simpa [resolveLoop, h0] using ih seen
    · by_cases hseen : jsTrimS raw ∈ seen
      · simpa [resolveLoop, h0, hseen, dedupFirst] using ih seen
      · simpa [resolveLoop, h0, hseen, dedupFirst, resolveOne_label]
          using ih (jsTrimS raw :: seen)

/-- `dedupFirst` produces no duplicates and avoids the seen set. -/
theorem dedupFirst_nodup (l : List String) (seen : List String) :
    (dedupFirst seen l).Nodup ∧ ∀ x ∈ dedupFirst seen l, x ∉ seen := by
  induction l generalizing seen with
  | nil => exact ⟨List.nodup_nil, by simp [dedupFirst]⟩
  | cons x xs ih =>
    by_cases hx : x ∈ seen
    · simpa [dedupFirst, hx] using ih seen
    · obtain ⟨hnd, havoid⟩ := ih (x :: seen)
      refine ⟨?_, ?_⟩
      · simp only [dedupFirst, if_neg hx, List.nodup_cons]
        exact ⟨fun hmem => (havoid x hmem) (List.mem_cons_self x seen), hnd⟩
      · intro y hy
        simp only [dedupFirst, if_neg hx, List.mem_cons] at hy
        rcases hy with rfl | hy
        · exact hx
        · exact fun hys => (havoid y hy) (List.mem_cons_of_mem x hys)

/-- The resolver loop emits at most one entry per citation. -/
theorem resolveLoop_length (d : Dataset) (l : List String) (seen : List String) :
    (resolveLoop d seen l).length ≤ l.length := by
  induction l generalizing seen with
  | nil => exact Nat.le_refl 0
  | cons raw rest ih =>
    by_cases hc : jsTrimS raw = "" ∨ jsTrimS raw ∈ seen
    · simp only [resolveLoop, if_pos hc, List.length_cons]
      exact Nat.le_succ_of_le (ih seen)
    · simp only [resolveLoop, if_neg hc, List.length_cons]
      exact Nat.succ_le_succ (ih _)

/-- C5: `getSourceDetails` is order-preserving and de-duplicating — its
entries' labels are exactly the trimmed non-empty citations, de-duplicated to
their first occurrence and in first-occurrence order (so exact duplicates
collapse to one entry and the labels contain no duplicates), and the output
never has more entries than the input list. -/
theorem sourceDetails_dedup_order (sources : List String) (d : Dataset) :
    (getSourceDetails sources d).map SourceDetail.label =
      dedupFirst [] ((sources.map jsTrimS).filter (· ≠ "")) ∧
    ((getSourceDetails sources d).map SourceDetail.label).Nodup ∧
    (getSourceDetails sources d).length ≤ sources.length := by
  have hmain : getSourceDetails sources d = resolveLoop d [] sources := by
    cases sources with
    | nil => rfl
    | cons a l => rfl
  rw [hmain]
  refine ⟨resolveLoop_labels d sources [], ?_, resolveLoop_length d sources []⟩
  rw [resolveLoop_labels d sources []]
  exact (dedupFirst_nodup _ _).1

/-! ## C1 — classification of hex-like citations -/

/-- The commit search fails exactly when no record matches. -/
theorem gitFind_eq_none_iff (s : String) (l : List GitItem) :
    gitFind s l = none ↔ ∀ it ∈ l, gitMatch s it = false := by
  induction l with
  | nil => simp [gitFind]
  | cons it rest ih =>
    by_cases h : gitMatch s it = true
    · simp [gitFind, h]
    · simp only [Bool.not_eq_true] at h
      simp [gitFind, h, ih]

/-- A found commit record belongs to the corpus and matches the citation. -/
theorem gitFind_eq_some {s : String} {l : List GitItem} {it : GitItem}
    (h : gitFind s l = some it) : it ∈ l ∧ gitMatch s it = true := by
  induction l with
  | nil => exact Option.noConfusion h
  | cons a rest ih =>
    by_cases ha : gitMatch s a = true
    · rw [gitFind, if_pos ha] at h
      have heq := (Option.some.injEq _ _).mp h
      subst heq
      exact ⟨List.mem_cons_self _ _, ha⟩
    · rw [gitFind, if_neg ha] at h
      obtain ⟨hmem, hm⟩ := ih h
      exact ⟨List.mem_cons_of_mem a hmem, hm⟩

/-- The ticket search fails exactly when no record matches. -/
theorem jiraFind_eq_none_iff (s : String) (l : List JiraItem) :
    jiraFind s l = none ↔ ∀ it ∈ l, jiraMatch s it = false := by
  induction l with
  | nil => simp [jiraFind]
  | cons it rest ih =>
    by_cases h : jiraMatch s it = true
    · simp [jiraFind, h]
    · simp only [Bool.not_eq_true] at h
      simp [jiraFind, h, ih]

/-- Counterexample for C1 as stated: the hex-like citation `deadbeef` (which
does not match the chat pattern) against a dataset with no matching commit
record resolves to a `document` entry whose content is the label — not to a
commit-type entry with empty content; and the hex-like citation `SEC-1234`
against a dataset with a matching ticket but no matching commit resolves as a
ticket. -/
theorem commit_classification_counterexample :
    hexRunTest "deadbeef".data = true ∧ chatTest "deadbeef".data = false ∧
    getSourceDetails ["deadbeef"] ⟨some [], some [], some [], some "", none⟩ =
      [{ type := "document", label := "deadbeef", content := "deadbeef" }] ∧
    hexRunTest "SEC-1234".data = true ∧ chatTest "SEC-1234".data = false ∧
    (getSourceDetails ["SEC-1234"]
      ⟨some [], some [], some [⟨some "SEC-1234", some "t", some "s", some "c"⟩], some "", none⟩).map
      SourceDetail.type = ["jira"] := by
  refine ⟨by decide, by decide, by decide, by decide, by decide, by decide⟩

/-- C1 (amended): a citation matching a hex-like token of length at least 4
and not matching the chat pattern is resolved to exactly one entry which is
never chat-typed; it is commit-typed (`git`) precisely when some commit
record's hash matches the citation; and when no commit record matches, the
citation falls through to the ticket heuristic and otherwise to the document
fallback (whose content comes from docs/releases or is the label itself) —
it does not produce a commit entry with empty content. -/
theorem commit_classification (s : String) (d : Dataset)
    (htrim : jsTrimS s = s) (hne : s ≠ "")
    (hhex : hexRunTest s.data = true) (hchat : chatTest s.data = false) :
    getSourceDetails [s] d = [resolveOne d s] ∧
    (resolveOne d s).type ≠ "slack" ∧
    ((resolveOne d s).type = "git" ↔ ∃ it ∈ gitList d, gitMatch s it = true) ∧
    ((∀ it ∈ gitList d, gitMatch s it = false) →
      ¬ (jiraTest s.data = true ∧ ∃ it ∈ jiraList d, jiraMatch s it = true) →
      resolveOne d s =
        { type := "document", label := s, content := fallbackContent d s }) := by
  have hcommit : commitTest s.data = true := by
    unfold commitTest
    rw [hhex]
    simp
  have hchatR : chatResolve d s = none := by
    simp [chatResolve, hchat]
  refine ⟨?_, ?_, ?_, ?_⟩
  · simp [getSourceDetails, resolveLoop, htrim, hne]
  · unfold resolveOne
    rw [hchatR]
    cases hg : gitFind s (gitList d) with
    | some it => simp [gitResolve, hcommit, hg]
    | none =>
      simp only [gitResolve, hcommit, if_true, hg]
      cases hj : jiraResolve d s with
      | some e =>
        have : e.type = "jira" := by
          unfold jiraResolve at hj
          split at hj
          · split at hj
            · cases hj; rfl
            · exact Option.noConfusion hj
          · exact Option.noConfusion hj
        simp [this]
      | none => simp
  · unfold resolveOne
    rw [hchatR]
    constructor
    · intro htype
      cases hg : gitFind s (gitList d) with
      | some it =>
        obtain ⟨hmem, hm⟩ := gitFind_eq_some hg
        exact ⟨it, hmem, hm⟩
      | none =>
        exfalso
        rw [show gitResolve d s = none from by simp [gitResolve, hcommit, hg]] at htype
        cases hj : jiraResolve d s with
        | some e =>
          rw [hj] at htype
          have : e.type = "jira" := by
            unfold jiraResolve at hj
            split at hj
            · split at hj
              · cases hj; rfl
              · exact Option.noConfusion hj
            · exact Option.noConfusion hj
          rw [this] at htype
          exact absurd htype (by decide)
        | none =>
          rw [hj] at htype
          simp at htype
    · rintro ⟨it, hmem, hm⟩
      cases hg : gitFind s (gitList d) with
      | some it0 => simp [gitResolve, hcommit, hg]
      | none =>
        exfalso
        have := (gitFind_eq_none_iff s (gitList d)).mp hg it hmem
        rw [hm] at this
        exact Bool.noConfusion this
  · intro hnogit hnojira
    have hg : gitFind s (gitList d) = none := (gitFind_eq_none_iff s (gitList d)).mpr hnogit
    have hj : jiraResolve d s = none := by
      unfold jiraResolve
      by_cases hjt : jiraTest s.data = true
      · rw [if_pos hjt]
        have hfind : jiraFind s (jiraList d) = none := by
          rw [jiraFind_eq_none_iff]
          intro it hit
          by_cases hm : jiraMatch s it = true
          · exact absurd ⟨hjt, it, hit, hm⟩ hnojira
          · exact Bool.not_eq_true _ ▸ (by simpa using hm)
        rw [hfind]
      · rw [if_neg hjt]
    unfold resolveOne
    rw [hchatR, show gitResolve d s = none from by simp [gitResolve, hcommit, hg], hj]

/-- Witness for C1 (amended): the spec's own scenario — citation `8a2f4c9`
against a dataset holding the matching commit — resolves as a commit, and the
same citation against a commit-free dataset falls to the document fallback. -/
theorem commit_classification_witness :
    (resolveOne ⟨some [], some [⟨some "8a2f4c9d1e", some "8a2f4c9", some "2025-09-12",
        some "maya", some "m", some "c", none⟩], some [], some "", none⟩ "8a2f4c9").type =
      "git" ∧
    resolveOne ⟨some [], some [], some [], some "", none⟩ "8a2f4c9" =
      { type := "document", label := "8a2f4c9", content := "8a2f4c9" } := by
  constructor
  · exact (commit_classification "8a2f4c9" _ rfl (by decide) (by decide) (by decide)).2.2.1.mpr
      ⟨⟨some "8a2f4c9d1e", some "8a2f4c9", some "2025-09-12", some "maya", some "m",
        some "c", none⟩, by decide, by decide⟩
  · have h := (commit_classification "8a2f4c9"
      ⟨some [], some [], some [], some "", none⟩ rfl (by decide) (by decide) (by decide)).2.2.2
      (by intro it hit; simp [gitList] at hit)
      (by rintro ⟨-, it, hit, -⟩; simp [jiraList] at hit)
    rw [h]
    rfl

/-- The backtick character, as the head of the fence marker. -/
def tickChar : Char := "```".data.headD ' '

/-! ## C3 — `extractJson` recovery: supporting lemmas -/

/-- `JSON.parse` of the empty string fails. -/
theorem jsonParseL_nil : jsonParseL [] = none := rfl

/-- Characters of the trimmed text are characters of the text. -/
theorem mem_of_mem_jsTrimL {c : Char} {cs : List Char} (h : c ∈ jsTrimL cs) : c ∈ cs := by
  have hdef : jsTrimL cs = List.rdropWhile isJsWS (cs.dropWhile isJsWS) := rfl
  rw [hdef] at h
  exact (List.dropWhile_suffix isJsWS).sublist.subset
    ((List.rdropWhile_prefix isJsWS (cs.dropWhile isJsWS)).sublist.subset h)

/-- A list is always a prefix of itself extended. -/
theorem isPrefixOf_self_append (l e : List Char) : l.isPrefixOf (l ++ e) = true := by
  induction l with
  | nil => simp [List.isPrefixOf]
  | cons a as ih => simp [List.isPrefixOf, ih]

/-- A needle whose head character is absent from the haystack never occurs. -/
theorem containsSubL_eq_false {a : Char} {sub : List Char} (hsub : sub.head? = some a) :
    ∀ {s : List Char}, a ∉ s → containsSubL sub s = false := by
  intro s
  induction s with
  | nil =>
    intro _
    cases sub with
    | nil => exact Option.noConfusion hsub
    | cons b bs => rfl
  | cons c cs ih =>
    intro h
    have hac : a ≠ c := fun hh => h (hh ▸ List.mem_cons_self c cs)
    have hcs : a ∉ cs := fun hh => h (List.mem_cons_of_mem c hh)
    cases sub with
    | nil => exact Option.noConfusion hsub
    | cons b bs =>
      have hb : b = a := by
        injection hsub
      subst hb
      show (List.isPrefixOf (b :: bs) (c :: cs) || containsSubL (b :: bs) cs) = false
      have hpre : List.isPrefixOf (b :: bs) (c :: cs) = false := by
        simp [List.isPrefixOf, hac]
      rw [hpre, ih hcs]
      rfl

/-- The needle occurs where it textually stands. -/
theorem containsSubL_here {sep : List Char} (hsep : sep ≠ []) (rest : List Char) :
    containsSubL sep (sep ++ rest) = true := by
  cases sep with
  | nil => exact absurd rfl hsep
  | cons b bs =>
    show (List.isPrefixOf (b :: bs) ((b :: bs) ++ rest) || _) = true
    rw [isPrefixOf_self_append]
    rfl

/-- Occurrence is preserved by prepending text. -/
theorem containsSubL_append_of {sep rest : List Char} (pre : List Char)
    (h : containsSubL sep rest = true) : containsSubL sep (pre ++ rest) = true := by
  induction pre with
  | nil => exact h
  | cons c cs ih =>
    show (_ || containsSubL sep (cs ++ rest)) = true
    rw [ih]
    simp

/-- A separator-free text splits into itself alone. -/
theorem splitL_of_not_contains {sep : List Char} :
    ∀ {s : List Char}, containsSubL sep s = false → splitL sep s = [s] := by
  intro s
  induction s with
  | nil => intro _; simp [splitL]
  | cons c cs ih =>
    intro h
    rw [show containsSubL sep (c :: cs) =
      (sep.isPrefixOf (c :: cs) || containsSubL sep cs) from rfl] at h
    obtain ⟨h1, h2⟩ := Bool.or_eq_false_iff.mp h
    rw [splitL, dif_neg (by simp [h1])]
    rw [ih h2]

/-- Splitting on the first occurrence of the separator: when its head
character is absent from the text before it, the first field is that text. -/
theorem splitL_first {sep : List Char} {a : Char} (hsub : sep.head? = some a)
    (rest : List Char) :
    ∀ {pre : List Char}, a ∉ pre →
      splitL sep (pre ++ (sep ++ rest)) = pre :: splitL sep rest := by
  intro pre
  induction pre with
  | nil =>
    intro _
    cases sep with
    | nil => exact Option.noConfusion hsub
    | cons b bs =>
      show splitL (b :: bs) (b :: (bs ++ rest)) = [] :: splitL (b :: bs) rest
      rw [splitL, dif_pos ⟨List.cons_ne_nil b bs, by
        show List.isPrefixOf (b :: bs) ((b :: bs) ++ rest) = true
        exact isPrefixOf_self_append _ _⟩]
      simp only [List.length_cons, Nat.add_sub_cancel]
      rw [List.drop_left]
  | cons c pre' ih =>
    intro h
    have hac : a ≠ c := fun hh => h (hh ▸ List.mem_cons_self c pre')
    have hpre' : a ∉ pre' := fun hh => h (List.mem_cons_of_mem c hh)
    have hnp : sep.isPrefixOf (c :: (pre' ++ (sep ++ rest))) = false := by
      cases sep with
      | nil => exact Option.noConfusion hsub
      | cons b bs =>
        have hb : b = a := by injection hsub
        have hbc : (b == c) = false :=
          beq_eq_false_iff_ne.mpr (fun hh => hac (hb.symm.trans hh))
        simp [List.isPrefixOf, hbc]
    show splitL sep ((c :: pre') ++ (sep ++ rest)) = (c :: pre') :: splitL sep rest
    rw [show (c :: pre') ++ (sep ++ rest) = c :: (pre' ++ (sep ++ rest)) from rfl]
    rw [splitL, dif_neg (by simp [hnp])]
    rw [ih hpre']

/-- The brace walk is insensitive to text after the closing brace. -/
theorem braceWalk_append {ext : List Char} :
    ∀ {cs : List Char} {dep : Int} {out : List Char}, braceWalk dep cs = some out →
      braceWalk dep (cs ++ ext) = some out := by
  intro cs
  induction cs with
  | nil => intro dep out h; exact Option.noConfusion h
  | cons c cs' ih =>
    intro dep out h
    rw [show (c :: cs') ++ ext = c :: (cs' ++ ext) from rfl]
    rw [braceWalk] at h ⊢
    by_cases h1 : c = '{'
    · rw [if_pos h1] at h ⊢
      cases hw : braceWalk (dep + 1) cs' with
      | none => rw [hw] at h; exact Option.noConfusion h
      | some o =>
        rw [hw] at h
        rw [ih hw]
        exact h
    · rw [if_neg h1] at h ⊢
      by_cases h2 : c = '}'
      · rw [if_pos h2] at h ⊢
        by_cases h3 : dep - 1 = 0
        · rw [if_pos h3] at h ⊢
          exact h
        · rw [if_neg h3] at h ⊢
          cases hw : braceWalk (dep - 1) cs' with
          | none => rw [hw] at h; exact Option.noConfusion h
          | some o =>
            rw [hw] at h
            rw [ih hw]
            exact h
      · rw [if_neg h2] at h ⊢
        cases hw : braceWalk dep cs' with
        | none => rw [hw] at h; exact Option.noConfusion h
        | some o =>
          rw [hw] at h
          rw [ih hw]
          exact h

/-- `dropWhile` over a concatenation whose first part satisfies the predicate
throughout and whose second part starts with a failing character. -/
theorem dropWhile_append_stop {p : Char → Bool} :
    ∀ {pre rest : List Char}, (∀ c ∈ pre, p c = true) →
      (∀ c0, rest.head? = some c0 → p c0 = false) →
      List.dropWhile p (pre ++ rest) = rest := by
  intro pre
  induction pre with
  | nil =>
    intro rest _ h2
    cases rest with
    | nil => rfl
    | cons c0 r => simp [List.dropWhile_cons, h2 c0 rfl]
  | cons c pre' ih =>
    intro rest h1 h2
    simp only [List.cons_append, List.dropWhile_cons, h1 c (List.mem_cons_self c pre'),
      if_true]
    exact ih (fun c' hc' => h1 c' (List.mem_cons_of_mem c hc')) h2

/-- Without any fence marker, fence extraction is the identity. -/
theorem fenceExtract_id {x : List Char} (h1 : containsSubL "```json".data x = false)
    (h2 : containsSubL "```".data x = false) : fenceExtract x = x := by
  unfold fenceExtract
  simp [h1, h2]

/-- C3: `extractJson` never throws — every parse attempt is guarded, so the
function is total and returns the empty mapping for fully non-JSON text — and
it recovers an embedded JSON value by trying, in order: a full parse of the
trimmed text; extraction from a fenced code block, where a ` ```json `-marked
fence is preferred and a generic ` ``` ` fence is used otherwise; then a
brace-depth scan from the first `{` (which also recovers objects followed by
stray trailing characters). -/
theorem extractJson_recovery :
    (∀ (t : String) (v : Json), jsonParseL (jsTrimL t.data) = some v → extractJson t = v) ∧
    (∀ (t p j s : String) (v : Json),
      jsTrimL t.data = p.data ++ (j.data ++ s.data) →
      '{' ∉ p.data →
      tickChar ∉ p.data → tickChar ∉ j.data → tickChar ∉ s.data →
      jsonParseL (p.data ++ (j.data ++ s.data)) = none →
      j.data.head? = some '{' →
      braceWalk 0 j.data = some j.data →
      jsonParseL j.data = some v →
      extractJson t = v) ∧
    (∀ (t pre j post : String) (v : Json),
      jsTrimL t.data = pre.data ++ ("```json".data ++ (j.data ++ ("```".data ++ post.data))) →
      tickChar ∉ pre.data → tickChar ∉ j.data →
      containsSubL "```json".data (j.data ++ ("```".data ++ post.data)) = false →
      jsonParseL (jsTrimL t.data) = none →
      jsonParseL (jsTrimL j.data) = some v →
      extractJson t = v) ∧
    (∀ (t pre j post : String) (v : Json),
      jsTrimL t.data = pre.data ++ ("```".data ++ (j.data ++ ("```".data ++ post.data))) →
      tickChar ∉ pre.data → tickChar ∉ j.data →
      containsSubL "```json".data (jsTrimL t.data) = false →
      jsonParseL (jsTrimL t.data) = none →
      jsonParseL (jsTrimL j.data) = some v →
      extractJson t = v) ∧
    (∀ t : String, '{' ∉ t.data → tickChar ∉ t.data →
      jsonParseL (jsTrimL t.data) = none → extractJson t = Json.obj []) := by
  refine ⟨?_, ?_, ?_, ?_, ?_⟩
  · intro t v h
    show extractJsonL t.data = v
    by_cases h0 : jsTrimL t.data = []
    · rw [h0, jsonParseL_nil] at h
      exact Option.noConfusion h
    · simp only [extractJsonL]
      rw [if_neg h0, h]
  · intro t p j s v h1 h2 hp hj hs h4 h7 h6 h5
    show extractJsonL t.data = v
    have hjne : j.data ≠ [] := by
      intro hh
      rw [hh] at h7
      exact Option.noConfusion h7
    have hτne : jsTrimL t.data ≠ [] := by
      rw [h1]
      intro hh
      exact hjne (List.append_eq_nil.mp (List.append_eq_nil.mp hh).2).1
    have hback : tickChar ∉ p.data ++ (j.data ++ s.data) := by
      intro hh
      rcases List.mem_append.mp hh with hh | hh
      · exact hp hh
      · rcases List.mem_append.mp hh with hh | hh
        · exact hj hh
        · exact hs hh
    have hc1 : containsSubL "```json".data (p.data ++ (j.data ++ s.data)) = false :=
      @containsSubL_eq_false tickChar "```json".data rfl _ hback
    have hc2 : containsSubL "```".data (p.data ++ (j.data ++ s.data)) = false :=
      @containsSubL_eq_false tickChar "```".data rfl _ hback
    have hstop : ∀ c0 : Char, (j.data ++ s.data).head? = some c0 →
        (decide (c0 ≠ '{') : Bool) = false := by
      intro c0 hc0
      cases hjd : j.data with
      | nil => exact absurd hjd hjne
      | cons c1 tl =>
        rw [hjd] at h7 hc0
        have hcb : c1 = '{' := by injection h7
        have hc01 : c1 = c0 := by
          rw [List.cons_append] at hc0
          injection hc0
        rw [← hc01, hcb]
        simp
    have hdrop : List.dropWhile (fun c => decide (c ≠ '{')) (p.data ++ (j.data ++ s.data)) =
        j.data ++ s.data :=
      dropWhile_append_stop
        (fun c hc => decide_eq_true (fun he => h2 (he ▸ hc))) hstop
    have hrestne : j.data ++ s.data ≠ [] := by
      intro hh
      exact hjne (List.append_eq_nil.mp hh).1
    have hτne' : p.data ++ (j.data ++ s.data) ≠ [] := h1 ▸ hτne
    simp only [extractJsonL]
    rw [h1]
    simp only [if_neg hτne', h4, fenceExtract_id hc1 hc2, hdrop,
      if_neg hrestne, braceWalk_append h6, h5]
  · intro t pre j post v h1 hpre hj h4 h5 h6
    show extractJsonL t.data = v
    have hτne : jsTrimL t.data ≠ [] := by
      rw [h1]
      intro hh
      have hsj := (List.append_eq_nil.mp (List.append_eq_nil.mp hh).2).1
      exact absurd hsj (by decide)
    have hcont : containsSubL "```json".data (jsTrimL t.data) = true := by
      rw [h1]
      exact containsSubL_append_of pre.data (containsSubL_here (by decide) _)
    have hsplit1 : splitL "```json".data (jsTrimL t.data) =
        pre.data :: splitL "```json".data (j.data ++ ("```".data ++ post.data)) := by
      rw [h1]
      exact @splitL_first "```json".data tickChar rfl _ _ hpre
    have hsplit2 : splitL "```json".data (j.data ++ ("```".data ++ post.data)) =
        [j.data ++ ("```".data ++ post.data)] := splitL_of_not_contains h4
    have hsplit3 : splitL "```".data (j.data ++ ("```".data ++ post.data)) =
        j.data :: splitL "```".data post.data :=
      @splitL_first "```".data tickChar rfl _ _ hj
    simp only [extractJsonL]
    rw [if_neg hτne, h5]
    simp only [fenceExtract, hcont, if_true, hsplit1, hsplit2]
    simp only [List.get?_cons_succ, List.get?_cons_zero, hsplit3, List.headD_cons]
    rw [h6]
  · intro t pre j post v h1 hpre hj h4 h5 h6
    show extractJsonL t.data = v
    have hτne : jsTrimL t.data ≠ [] := by
      rw [h1]
      intro hh
      have hbt := (List.append_eq_nil.mp (List.append_eq_nil.mp hh).2).1
      exact absurd hbt (by decide)
    have hcont : containsSubL "```".data (jsTrimL t.data) = true := by
      rw [h1]
      exact containsSubL_append_of pre.data (containsSubL_here (by decide) _)
    have hsplit1 : splitL "```".data (jsTrimL t.data) =
        pre.data :: splitL "```".data (j.data ++ ("```".data ++ post.data)) := by
      rw [h1]
      exact @splitL_first "```".data tickChar rfl _ _ hpre
    have hsplit2 : splitL "```".data (j.data ++ ("```".data ++ post.data)) =
        j.data :: splitL "```".data post.data :=
      @splitL_first "```".data tickChar rfl _ _ hj
    have hsplit3 : splitL "```".data j.data = [j.data] :=
      splitL_of_not_contains (@containsSubL_eq_false tickChar "```".data rfl _ hj)
    simp only [extractJsonL]
    rw [if_neg hτne, h5]
    simp only [fenceExtract, h4, Bool.false_eq_true, if_false, ite_false, hcont,
      if_true, ite_true, hsplit1, hsplit2]
    simp only [List.get?_cons_succ, List.get?_cons_zero, hsplit3, List.headD_cons]
    rw [h6]
  · intro t h2 h3 h4
    show extractJsonL t.data = Json.obj []
    have hbr : ('{' : Char) ∉ jsTrimL t.data := fun hh => h2 (mem_of_mem_jsTrimL hh)
    have hbt : tickChar ∉ jsTrimL t.data := fun hh => h3 (mem_of_mem_jsTrimL hh)
    by_cases h0 : jsTrimL t.data = []
    · simp only [extractJsonL]
      rw [if_pos h0]
    · have hdrop : List.dropWhile (fun c => decide (c ≠ '{')) (jsTrimL t.data) = [] :=
        List.dropWhile_eq_nil_iff.mpr
          (fun c hc => decide_eq_true (fun he => hbr (he ▸ hc)))
      simp only [extractJsonL]
      simp only [if_neg h0, h4,
        fenceExtract_id (@containsSubL_eq_false tickChar "```json".data rfl _ hbt)
          (@containsSubL_eq_false tickChar "```".data rfl _ hbt),
        hdrop, if_pos rfl]
      simp

/-- Witness for C3: the five recovery modes at concrete model outputs —
plain JSON with surrounding whitespace; JSON wrapped in prose with stray
trailing text; JSON in a ` ```json ` fence with a generic fence also present
later; JSON in a generic ` ``` ` fence; and fully non-JSON text. -/
theorem extractJson_recovery_witness :
    extractJson " \x7b\"a\": 1\x7d " = Json.obj [("a", Json.num 1)] ∧
    extractJson "Here is the answer: \x7b\"a\": 1\x7d hope it helps" =
      Json.obj [("a", Json.num 1)] ∧
    extractJson ("pre " ++ ("```json" ++ ("\n\x7b\"k\": 1\x7d\n" ++ ("```" ++
      " post ``` \x7b\"wrong\": 2\x7d ```")))) = Json.obj [("k", Json.num 1)] ∧
    extractJson ("see " ++ ("```" ++ (" \x7b\"g\": 3\x7d " ++ ("```" ++ " end")))) =
      Json.obj [("g", Json.num 3)] ∧
    extractJson "totally not json" = Json.obj [] := by
  refine ⟨?_, ?_, ?_, ?_, ?_⟩
  · exact extractJson_recovery.1 " \x7b\"a\": 1\x7d " (Json.obj [("a", Json.num 1)]) rfl
  · exact extractJson_recovery.2.1 "Here is the answer: \x7b\"a\": 1\x7d hope it helps"
      "Here is the answer: " "\x7b\"a\": 1\x7d" " hope it helps"
      (Json.obj [("a", Json.num 1)])
      (by decide) (by decide) (by decide) (by decide) (by decide) rfl rfl rfl rfl
  · exact extractJson_recovery.2.2.1
      ("pre " ++ ("```json" ++ ("\n\x7b\"k\": 1\x7d\n" ++ ("```" ++
        " post ``` \x7b\"wrong\": 2\x7d ```"))))
      "pre " "\n\x7b\"k\": 1\x7d\n" " post ``` \x7b\"wrong\": 2\x7d ```"
      (Json.obj [("k", Json.num 1)])
      (by decide) (by decide) (by decide) (by decide) rfl rfl
  · exact extractJson_recovery.2.2.2.1
      ("see " ++ ("```" ++ (" \x7b\"g\": 3\x7d " ++ ("```" ++ " end"))))
      "see " " \x7b\"g\": 3\x7d " " end" (Json.obj [("g", Json.num 3)])
      (by decide) (by decide) (by decide) (by decide) rfl rfl
  · exact extractJson_recovery.2.2.2.2 "totally not json" (by decide) (by decide) rfl

end Asktra
